import Mathlib

/-!
Verification development for the liscopelens / lict license-compatibility
engine.  The Lean definitions below are a shallow embedding of the Python
sources under src/lict: pure functions are translated to Lean functions,
Python dictionaries become insertion-ordered association lists, Python sets
become duplicate-free lists in first-insertion order (Python set iteration
order is not part of the language semantics; every theorem below observes
sets only through order-insensitive predicates), and fallible code returns
Except.  Each definition carries a reference to the source location it
embeds.
-/

set_option maxHeartbeats 1000000

deriving instance DecidableEq for Except

/-! ## Generic helpers: Python dict / set modelled on lists -/

/-- Python dict lookup d.get(k): first entry with the given key
(association lists built here never hold duplicate keys). -/
def alookup {β : Type} (s : List (String × β)) (k : String) : Option β :=
  match s with
  | [] => none
  | p :: rest => if p.1 = k then some p.2 else alookup rest k

/-- Python dict assignment d[k] = v: replace in place when the key exists,
append otherwise. -/
def aset {β : Type} (s : List (String × β)) (k : String) (v : β) : List (String × β) :=
  if (s.map (·.1)).contains k then
    s.map (fun p => if p.1 = k then (k, v) else p)
  else
    s ++ [(k, v)]

/-- Python set.add for a set of strings modelled as a duplicate-free list. -/
def insSet (l : List String) (x : String) : List String :=
  if l.contains x then l else l ++ [x]

/-- Python set union, determinised to first-operand order followed by the
new elements of the second operand. -/
def unionSet (a b : List String) : List String :=
  b.foldl insSet a

/-- Python set construction from a list (duplicates dropped, first
occurrence kept). -/
def dedupSet (l : List String) : List String :=
  l.foldl insSet []

/-- Equality of Python sets of strings (order-insensitive). -/
def setEqS (a b : List String) : Bool :=
  a.all b.contains && b.all a.contains

/-! ## Scope algebra (src/lict/utils/structure.py, class Scope)

A Scope is a Python dict from protect-scope tokens to sets of escape-scope
tokens.  ScopeToken.UNIVERSE = "UNIVERSAL" (src/lict/constants.py line 55). -/

def UNIVERSE : String := "UNIVERSAL"

abbrev Scope := List (String × List String)

/-- Scope keys (Python list(scope.keys()), also the protect_scope property). -/
def Scope.skeys (s : Scope) : List String := s.map (·.1)

/-- Scope._simplify (structure.py lines 189-205): if UNIVERSE maps to the
empty set the whole scope collapses to the universal scope, otherwise every
key listing itself among its escapes is dropped. -/
def Scope.simplify (s : Scope) : Scope :=
  if alookup s UNIVERSE = some [] then [(UNIVERSE, [])]
  else s.filter (fun p => !p.2.contains p.1)

/-- Scope.__bool__ (structure.py lines 186-187): truthy iff the simplified
scope has at least one key. -/
def Scope.truthy (s : Scope) : Bool :=
  !(Scope.simplify s).isEmpty

/-- Scope.universe (structure.py lines 92-94). -/
def Scope.univ : Scope := [(UNIVERSE, [])]

/-- Scope.is_universal (structure.py lines 232-234). -/
def Scope.is_universal (s : Scope) : Bool :=
  alookup s UNIVERSE = some []

/-- Scope.__and__ (structure.py lines 110-129).  Both operands are
simplified; a UNIVERSE entry of one side cross-joins its escapes onto every
key of the other side; keys present in both sides take the union of the
escape sets (joined with whatever the earlier blocks already recorded). -/
def Scope.sand (self other : Scope) : Scope :=
  let so := Scope.simplify other
  let ss := Scope.simplify self
  let new1 : Scope :=
    match alookup ss UNIVERSE with
    | some u => so.foldl (fun acc p => aset acc p.1 (unionSet p.2 u)) []
    | none => []
  let new2 : Scope :=
    match alookup so UNIVERSE with
    | some u => ss.foldl (fun acc p => aset acc p.1 (unionSet p.2 u)) new1
    | none => new1
  let new3 : Scope :=
    ss.foldl (fun acc p =>
      match alookup so p.1 with
      | none => acc
      | some ov =>
          aset acc p.1 (unionSet (unionSet p.2 ov) ((alookup acc p.1).getD []))) new2
  Scope.simplify new3

/-- Scope.__contains__ (structure.py lines 131-155), called as
`other in self` in Python, i.e. this decides whether self contains other.
For every key of the simplified other: when self holds the key, the escapes
of self not escaped by other remain uncovered; when self lacks the key the
whole entry is uncovered.  The uncovered entries must then be absorbed by a
UNIVERSE entry of self whose escape set avoids every uncovered key. -/
def Scope.scontains (self other : Scope) : Bool :=
  let ss := Scope.simplify self
  let so := Scope.simplify other
  let unc : Scope := so.foldl (fun acc p =>
    match alookup ss p.1 with
    | some sv =>
        let remains := sv.filter (fun x => !p.2.contains x)
        if remains.isEmpty then acc else aset acc p.1 remains
    | none => aset acc p.1 p.2) []
  if unc.isEmpty then true
  else
    match alookup ss UNIVERSE with
    | none => false
    | some uv => unc.all (fun p => !uv.contains p.1)

/-- One iteration of the inner loop of Scope.negate (structure.py lines
212-221): former key k with escape token v.  When v is not yet a key of the
accumulator it is created with an empty escape set; a former UNIVERSE key
resets the escape set of v to empty, any other former key is added to it. -/
def Scope.negStep (acc : Scope) (k v : String) : Scope :=
  let acc3 := if (alookup acc v).isNone then aset acc v [] else acc
  if k = UNIVERSE then aset acc3 v []
  else aset acc3 v (insSet ((alookup acc3 v).getD []) k)

/-- The outer loop body of Scope.negate: fold the inner loop over the
escape set of one dict entry. -/
def Scope.negPair (acc : Scope) (p : String × List String) : Scope :=
  p.2.foldl (fun acc2 v => Scope.negStep acc2 p.1 v) acc

/-- The full double loop of Scope.negate. -/
def Scope.negAux (acc : Scope) (s : Scope) : Scope :=
  s.foldl Scope.negPair acc

/-- Scope.negate (structure.py lines 207-222): a falsy scope negates to the
universal scope; otherwise every escape token becomes a key whose escape
set collects the former keys, except that a former UNIVERSE key resets the
new escape set to the empty set. -/
def Scope.negate (s : Scope) : Scope :=
  if Scope.truthy s = false then Scope.univ
  else Scope.negAux [] s

/-- Python dict equality for scopes: the same key set, and set-equal escape
values (Python compares the values as sets, insensitive to order). -/
def Scope.dictEq (a b : Scope) : Bool :=
  (a.all fun p => match alookup b p.1 with
    | some v => setEqS p.2 v
    | none => false) &&
  (b.all fun p => (alookup a p.1).isSome)

/-- Well-formed scope: the image of an actual Python dict of sets — keys
are unique and each escape list is duplicate-free. -/
def Scope.WF (s : Scope) : Prop :=
  (s.map (·.1)).Nodup ∧ ∀ p ∈ s, p.2.Nodup

example : Scope.sand Scope.univ [("STATIC_LINKING", [])] = [("STATIC_LINKING", [])] := by decide

example : Scope.negate [("STATIC_LINKING", ["COMPILE"])] = [("COMPILE", ["STATIC_LINKING"])] := by
  decide

example : Scope.negate (Scope.negate [("STATIC_LINKING", [])]) = Scope.univ := by decide

example : Scope.scontains [("UNIVERSAL", ["COMPILE"])] [("STATIC_LINKING", [])] = true := by decide

example : Scope.scontains [("STATIC_LINKING", [])] [("COMPILE", [])] = false := by decide

/-! ## Dictionary and set lemmas -/

theorem alookup_append {β : Type} (s t : List (String × β)) (k : String) :
    alookup (s ++ t) k = ((alookup s k).orElse fun _ => alookup t k) := by
  induction s with
  | nil => simp [alookup, Option.orElse]
  | cons p rest ih =>
      by_cases h : p.1 = k
      · simp [alookup, h, Option.orElse]
      · simp [alookup, h, ih]

theorem alookup_eq_none {β : Type} (s : List (String × β)) (k : String) :
    alookup s k = none ↔ k ∉ s.map (·.1) := by
  induction s with
  | nil => simp [alookup]
  | cons p rest ih =>
      by_cases h : p.1 = k
      · simp [alookup, h]
      · simp only [alookup, if_neg h, ih, List.map_cons, List.mem_cons]
        constructor
        · rintro hk
          exact fun hc => hc.elim (fun he => h he.symm) hk
        · intro hk
          exact fun hm => hk (Or.inr hm)

theorem alookup_isSome_iff {β : Type} (s : List (String × β)) (k : String) :
    (alookup s k).isSome = true ↔ ∃ p ∈ s, p.1 = k := by
  induction s with
  | nil => simp [alookup]
  | cons p rest ih =>
      by_cases h : p.1 = k
      · simp [alookup, h]
      · simp [alookup, h, ih]

theorem alookup_eq_some_mem {β : Type} (s : List (String × β)) (k : String) (v : β)
    (h : alookup s k = some v) : (k, v) ∈ s := by
  induction s with
  | nil => simp [alookup] at h
  | cons p rest ih =>
      by_cases hp : p.1 = k
      · simp only [alookup, if_pos hp, Option.some.injEq] at h
        have hpv : p = (k, v) := by
          cases p
          simp only at hp h
          simp [hp, h]
        exact hpv ▸ List.mem_cons_self p rest
      · simp only [alookup, if_neg hp] at h
        exact List.mem_cons_of_mem _ (ih h)

theorem alookup_of_mem_nodup {β : Type} (s : List (String × β))
    (hnd : (s.map (·.1)).Nodup) (p : String × β) (hp : p ∈ s) :
    alookup s p.1 = some p.2 := by
  induction s with
  | nil => simp at hp
  | cons q rest ih =>
      rw [List.map_cons, List.nodup_cons] at hnd
      rcases List.mem_cons.mp hp with h | h
      · subst h
        simp [alookup]
      · have hne : q.1 ≠ p.1 := by
          intro he
          exact hnd.1 (he ▸ List.mem_map_of_mem (·.1) h)
        simp only [alookup, if_neg hne]
        exact ih hnd.2 h

theorem mem_insSet (l : List String) (x y : String) :
    y ∈ insSet l x ↔ y ∈ l ∨ y = x := by
  unfold insSet
  by_cases h : l.contains x
  · simp only [if_pos h]
    have hx : x ∈ l := by simpa using h
    constructor
    · exact Or.inl
    · rintro (hy | rfl)
      · exact hy
      · exact hx
  · simp only [if_neg h]
    simp

theorem alookup_map_replace_ne {β : Type} (s : List (String × β)) (k k' : String) (v : β)
    (h : k' ≠ k) :
    alookup (s.map (fun p => if p.1 = k then (k, v) else p)) k' = alookup s k' := by
  induction s with
  | nil => simp [alookup]
  | cons p rest ih =>
      by_cases hp : p.1 = k
      · have hkk : ¬ k = k' := fun he => h he.symm
        have hpk : ¬ p.1 = k' := by rw [hp]; exact hkk
        simp only [List.map_cons, if_pos hp, alookup, if_neg hkk, if_neg hpk, ih]
      · simp only [List.map_cons, if_neg hp, alookup, ih]

theorem alookup_map_replace_self {β : Type} (s : List (String × β)) (k : String) (v : β)
    (hmem : k ∈ s.map (·.1)) :
    alookup (s.map (fun p => if p.1 = k then (k, v) else p)) k = some v := by
  induction s with
  | nil => simp at hmem
  | cons p rest ih =>
      by_cases hp : p.1 = k
      · simp [alookup, hp]
      · simp only [List.map_cons, if_neg hp, alookup]
        apply ih
        simp at hmem
        rcases hmem with h | h
        · exact absurd h.symm hp
        · simpa using h

theorem alookup_aset {β : Type} (s : List (String × β)) (k k' : String) (v : β) :
    alookup (aset s k v) k' = if k' = k then some v else alookup s k' := by
  unfold aset
  by_cases hc : (s.map (·.1)).contains k
  · rw [if_pos hc]
    by_cases hk : k' = k
    · subst hk
      rw [if_pos rfl]
      exact alookup_map_replace_self s k' v (by simpa using hc)
    · rw [if_neg hk]
      exact alookup_map_replace_ne s k k' v hk
  · rw [if_neg hc, alookup_append]
    by_cases hk : k' = k
    · subst hk
      have hnone : alookup s k' = none := by
        rw [alookup_eq_none]
        simpa using hc
      simp [hnone, alookup, Option.orElse]
    · cases ho : alookup s k' with
      | none =>
          have hkk : ¬ k = k' := fun he => hk he.symm
          simp [ho, alookup, hkk, hk, Option.orElse]
      | some w => simp [ho, hk, Option.orElse]

/-! ## Characterisation of Scope.negate -/

/-- Key presence and escape membership of the result of one negStep
(for a former key other than UNIVERSE). -/
theorem negStep_lookup (acc : Scope) (k v x : String) (hk : k ≠ UNIVERSE) :
    alookup (Scope.negStep acc k v) x =
      if x = v then some (insSet ((alookup acc v).getD []) k) else alookup acc x := by
  unfold Scope.negStep
  rw [if_neg hk]
  by_cases hnone : (alookup acc v).isNone
  · rw [if_pos hnone]
    have h0 : alookup (aset acc v []) v = some [] := by
      rw [alookup_aset]
      simp
    rw [h0]
    simp only [Option.getD_some]
    have hv : alookup acc v = none := by
      cases h : alookup acc v
      · rfl
      · rw [h] at hnone
        simp at hnone
    by_cases hx : x = v
    · subst hx
      rw [alookup_aset, if_pos rfl, hv]
      simp
    · rw [alookup_aset, if_neg hx, alookup_aset]
      simp [hx]
  · rw [if_neg hnone]
    by_cases hx : x = v
    · subst hx
      rw [alookup_aset]
    · rw [alookup_aset]

/-- Scope key presence, as a Prop. -/
def Scope.hasKey (s : Scope) (x : String) : Prop := (alookup s x).isSome = true

/-- Escape set of a key (empty when the key is absent). -/
def Scope.escOf (s : Scope) (x : String) : List String := (alookup s x).getD []

theorem escOf_mem_hasKey (s : Scope) (x y : String) (h : y ∈ Scope.escOf s x) :
    Scope.hasKey s x := by
  unfold Scope.escOf at h
  unfold Scope.hasKey
  cases ho : alookup s x
  · rw [ho] at h
    simp at h
  · simp

theorem negInner_char (k : String) (hk : k ≠ UNIVERSE) (esc : List String) (acc : Scope)
    (x : String) :
    (Scope.hasKey (esc.foldl (fun a v => Scope.negStep a k v) acc) x ↔
      Scope.hasKey acc x ∨ x ∈ esc) ∧
    (∀ y, y ∈ Scope.escOf (esc.foldl (fun a v => Scope.negStep a k v) acc) x ↔
      y ∈ Scope.escOf acc x ∨ (x ∈ esc ∧ y = k)) := by
  induction esc generalizing acc with
  | nil => simp
  | cons v rest ih =>
      simp only [List.foldl_cons]
      obtain ⟨ih1, ih2⟩ := ih (Scope.negStep acc k v)
      constructor
      · rw [ih1]
        unfold Scope.hasKey
        rw [negStep_lookup acc k v x hk]
        by_cases hx : x = v
        · subst hx
          simp
        · rw [if_neg hx]
          simp only [List.mem_cons]
          tauto
      · intro y
        rw [ih2 y]
        unfold Scope.escOf
        rw [negStep_lookup acc k v x hk]
        by_cases hx : x = v
        · subst hx
          rw [if_pos rfl]
          simp only [Option.getD_some, List.mem_cons, mem_insSet]
          tauto
        · rw [if_neg hx]
          simp only [List.mem_cons]
          tauto

theorem negAux_char (s : Scope) (hU : ∀ p ∈ s, p.1 ≠ UNIVERSE) (acc : Scope) (x : String) :
    (Scope.hasKey (Scope.negAux acc s) x ↔ Scope.hasKey acc x ∨ ∃ p ∈ s, x ∈ p.2) ∧
    (∀ y, y ∈ Scope.escOf (Scope.negAux acc s) x ↔
      y ∈ Scope.escOf acc x ∨ ∃ p ∈ s, p.1 = y ∧ x ∈ p.2) := by
  induction s generalizing acc with
  | nil => simp [Scope.negAux]
  | cons p rest ih =>
      have hp1 : p.1 ≠ UNIVERSE := hU p (List.mem_cons_self p rest)
      have hUr : ∀ q ∈ rest, q.1 ≠ UNIVERSE := fun q hq => hU q (List.mem_cons_of_mem p hq)
      unfold Scope.negAux
      simp only [List.foldl_cons]
      have hpair : Scope.negPair acc p = p.2.foldl (fun a v => Scope.negStep a p.1 v) acc := rfl
      obtain ⟨ihrest1, ihrest2⟩ := ih hUr (Scope.negPair acc p)
      obtain ⟨hin1, hin2⟩ := negInner_char p.1 hp1 p.2 acc x
      constructor
      · unfold Scope.negAux at ihrest1
        rw [ihrest1, hpair, hin1]
        constructor
        · rintro ((ha | hm) | ⟨q, hq, hx⟩)
          · exact Or.inl ha
          · exact Or.inr ⟨p, List.mem_cons_self p rest, hm⟩
          · exact Or.inr ⟨q, List.mem_cons_of_mem p hq, hx⟩
        · rintro (ha | ⟨q, hq, hx⟩)
          · exact Or.inl (Or.inl ha)
          · rcases List.mem_cons.mp hq with hq | hq
            · exact Or.inl (Or.inr (hq ▸ hx))
            · exact Or.inr ⟨q, hq, hx⟩
      · intro y
        unfold Scope.negAux at ihrest2
        rw [ihrest2 y, hpair, hin2 y]
        constructor
        · rintro ((ha | ⟨hm, hy⟩) | ⟨q, hq, hqy, hx⟩)
          · exact Or.inl ha
          · exact Or.inr ⟨p, List.mem_cons_self p rest, hy ▸ rfl, hm⟩
          · exact Or.inr ⟨q, List.mem_cons_of_mem p hq, hqy, hx⟩
        · rintro (ha | ⟨q, hq, hqy, hx⟩)
          · exact Or.inl (Or.inl ha)
          · rcases List.mem_cons.mp hq with hq | hq
            · subst hq
              exact Or.inl (Or.inr ⟨hx, hqy.symm⟩)
            · exact Or.inr ⟨q, hq, hqy, hx⟩

theorem keys_map_replace {β : Type} (s : List (String × β)) (k : String) (v : β) :
    (s.map (fun p => if p.1 = k then (k, v) else p)).map (·.1) = s.map (·.1) := by
  induction s with
  | nil => simp
  | cons p rest ih =>
      by_cases hp : p.1 = k
      · simp only [List.map_cons, if_pos hp, ih, List.cons.injEq]
        exact ⟨hp.symm, trivial⟩
      · simp only [List.map_cons, if_neg hp, ih]

theorem aset_keys {β : Type} (s : List (String × β)) (k : String) (v : β) :
    (aset s k v).map (·.1) =
      if (s.map (·.1)).contains k then s.map (·.1) else s.map (·.1) ++ [k] := by
  unfold aset
  by_cases hc : (s.map (·.1)).contains k
  · rw [if_pos hc, if_pos hc, keys_map_replace]
  · rw [if_neg hc, if_neg hc]
    simp

theorem aset_keys_nodup {β : Type} (s : List (String × β)) (k : String) (v : β)
    (h : (s.map (·.1)).Nodup) : ((aset s k v).map (·.1)).Nodup := by
  rw [aset_keys]
  by_cases hc : (s.map (·.1)).contains k
  · rwa [if_pos hc]
  · rw [if_neg hc]
    have hk : k ∉ s.map (·.1) := by simpa using hc
    simp [List.nodup_append, h, hk]

theorem negStep_keys_nodup (acc : Scope) (k v : String)
    (h : (acc.map (·.1)).Nodup) : ((Scope.negStep acc k v).map (·.1)).Nodup := by
  unfold Scope.negStep
  by_cases hn : (alookup acc v).isNone
  · rw [if_pos hn]
    by_cases hk : k = UNIVERSE
    · rw [if_pos hk]
      exact aset_keys_nodup _ v [] (aset_keys_nodup acc v [] h)
    · rw [if_neg hk]
      exact aset_keys_nodup _ v _ (aset_keys_nodup acc v [] h)
  · rw [if_neg hn]
    by_cases hk : k = UNIVERSE
    · rw [if_pos hk]
      exact aset_keys_nodup acc v [] h
    · rw [if_neg hk]
      exact aset_keys_nodup acc v _ h

theorem negPair_keys_nodup (acc : Scope) (p : String × List String)
    (h : (acc.map (·.1)).Nodup) : ((Scope.negPair acc p).map (·.1)).Nodup := by
  unfold Scope.negPair
  induction p.2 generalizing acc with
  | nil => exact h
  | cons v rest ih =>
      simp only [List.foldl_cons]
      exact ih (Scope.negStep acc p.1 v) (negStep_keys_nodup acc p.1 v h)

theorem negAux_keys_nodup (s : Scope) (acc : Scope)
    (h : (acc.map (·.1)).Nodup) : ((Scope.negAux acc s).map (·.1)).Nodup := by
  unfold Scope.negAux
  induction s generalizing acc with
  | nil => exact h
  | cons p rest ih =>
      simp only [List.foldl_cons]
      exact ih (Scope.negPair acc p) (negPair_keys_nodup acc p h)

theorem truthy_of_fix_ne (s : Scope) (h1 : Scope.simplify s = s) (h2 : s ≠ []) :
    Scope.truthy s = true := by
  unfold Scope.truthy
  rw [h1]
  cases s with
  | nil => exact absurd rfl h2
  | cons p rest => rfl

theorem exists_entry_iff_escOf (N : Scope) (hnd : (N.map (·.1)).Nodup) (x y : String) :
    (∃ r ∈ N, r.1 = y ∧ x ∈ r.2) ↔ x ∈ Scope.escOf N y := by
  constructor
  · rintro ⟨r, hr, rfl, hx⟩
    unfold Scope.escOf
    rw [alookup_of_mem_nodup N hnd r hr]
    exact hx
  · intro hx
    unfold Scope.escOf at hx
    cases ho : alookup N y with
    | none => rw [ho] at hx; simp at hx
    | some val =>
        rw [ho] at hx
        simp only [Option.getD_some] at hx
        exact ⟨(y, val), alookup_eq_some_mem N y val ho, rfl, hx⟩

/-- C8 counterexample: the scope mapping STATIC_LINKING to the empty escape
set is a fixed point of Scope._simplify, yet Scope.negate applied twice
yields the universal scope, which is not dict-equal to the input.  The
claim that double negation restores every simplified scope is therefore
false on the code. -/
theorem C8_counterexample :
    Scope.simplify [("STATIC_LINKING", [])] = [("STATIC_LINKING", [])] ∧
    Scope.WF [("STATIC_LINKING", [])] ∧
    Scope.negate (Scope.negate [("STATIC_LINKING", [])]) = Scope.univ ∧
    Scope.dictEq (Scope.negate (Scope.negate [("STATIC_LINKING", [])]))
      [("STATIC_LINKING", [])] = false := by
  refine ⟨by decide, ⟨by decide, by decide⟩, by decide, by decide⟩

/-- C8 (amended): double negation of Scope.negate restores the scope, up to
Python dict equality, for every well-formed simplified scope that is either
empty, the universal scope, or has only non-UNIVERSE keys with non-empty
escape sets that avoid the UNIVERSE token.  (Keys with empty escape sets
are lost by negate — see the counterexample — and so are UNIVERSE keys and
UNIVERSE escapes.) -/
theorem C8_amended_double_negation (X : Scope) (hWF : Scope.WF X)
    (hfix : Scope.simplify X = X)
    (hcase : X = [] ∨ X = Scope.univ ∨
      (X ≠ [] ∧ ∀ p ∈ X, p.1 ≠ UNIVERSE ∧ p.2 ≠ [] ∧ UNIVERSE ∉ p.2)) :
    Scope.dictEq (Scope.negate (Scope.negate X)) X = true := by
  rcases hcase with rfl | rfl | ⟨hne, hprops⟩
  · decide
  · decide
  have hUkeys : ∀ p ∈ X, p.1 ≠ UNIVERSE := fun p hp => (hprops p hp).1
  have hEscNe : ∀ p ∈ X, p.2 ≠ [] := fun p hp => (hprops p hp).2.1
  have hUesc : ∀ p ∈ X, UNIVERSE ∉ p.2 := fun p hp => (hprops p hp).2.2
  have hXnd : (X.map (·.1)).Nodup := hWF.1
  have htX : Scope.truthy X = true := truthy_of_fix_ne X hfix hne
  have hnegX : Scope.negate X = Scope.negAux [] X := by
    unfold Scope.negate
    rw [htX]
    simp
  have hUnotkeys : UNIVERSE ∉ X.map (·.1) := by
    intro hm
    obtain ⟨p, hp, hp1⟩ := List.mem_map.mp hm
    exact hUkeys p hp hp1
  have hlookU : alookup X UNIVERSE = none := (alookup_eq_none X UNIVERSE).mpr hUnotkeys
  have hnoself : ∀ p ∈ X, p.1 ∉ p.2 := by
    intro p hp hmem
    have hs : Scope.simplify X = X.filter (fun p => !p.2.contains p.1) := by
      unfold Scope.simplify
      rw [hlookU]
      simp
    rw [hs] at hfix
    have hf := List.filter_eq_self.mp hfix p hp
    simp at hf
    exact hf hmem
  have hcharN : ∀ x, (Scope.hasKey (Scope.negAux [] X) x ↔ ∃ p ∈ X, x ∈ p.2) ∧
      (∀ y, y ∈ Scope.escOf (Scope.negAux [] X) x ↔ ∃ p ∈ X, p.1 = y ∧ x ∈ p.2) := by
    intro x
    obtain ⟨h1, h2⟩ := negAux_char X hUkeys [] x
    refine ⟨?_, ?_⟩
    · rw [h1]
      simp [Scope.hasKey, alookup]
    · intro y
      rw [h2 y]
      simp [Scope.escOf, alookup]
  set N := Scope.negAux [] X with hNdef
  have hndN : (N.map (·.1)).Nodup := negAux_keys_nodup X [] (by simp)
  have hUN : ∀ q ∈ N, q.1 ≠ UNIVERSE := by
    intro q hq hequ
    have hk : Scope.hasKey N q.1 := by
      unfold Scope.hasKey
      exact (alookup_isSome_iff N q.1).mpr ⟨q, hq, rfl⟩
    obtain ⟨p, hp, hmem⟩ := ((hcharN q.1).1).mp hk
    exact hUesc p hp (hequ ▸ hmem)
  have hlookNU : alookup N UNIVERSE = none := by
    cases h : alookup N UNIVERSE with
    | none => rfl
    | some val =>
        have hk : Scope.hasKey N UNIVERSE := by simp [Scope.hasKey, h]
        obtain ⟨p, hp, hmem⟩ := ((hcharN UNIVERSE).1).mp hk
        exact absurd hmem (hUesc p hp)
  have hnoselfN : ∀ q ∈ N, q.1 ∉ q.2 := by
    intro q hq hmem
    have hlq : alookup N q.1 = some q.2 := alookup_of_mem_nodup N hndN q hq
    have hq1 : q.1 ∈ Scope.escOf N q.1 := by simp [Scope.escOf, hlq, hmem]
    obtain ⟨p, hp, hp1, hpm⟩ := ((hcharN q.1).2 q.1).mp hq1
    exact hnoself p hp (by rw [hp1]; exact hpm)
  have hsimpN : Scope.simplify N = N := by
    unfold Scope.simplify
    rw [hlookNU]
    simp only [reduceCtorEq, if_false]
    apply List.filter_eq_self.mpr
    intro q hq
    simp [hnoselfN q hq]
  have hNne : N ≠ [] := by
    obtain ⟨p, hp⟩ := List.exists_mem_of_ne_nil X hne
    obtain ⟨v, hv⟩ := List.exists_mem_of_ne_nil p.2 (hEscNe p hp)
    have hk : Scope.hasKey N v := ((hcharN v).1).mpr ⟨p, hp, hv⟩
    intro h0
    rw [h0] at hk
    simp [Scope.hasKey, alookup] at hk
  have htN : Scope.truthy N = true := truthy_of_fix_ne N hsimpN hNne
  have hnegN : Scope.negate N = Scope.negAux [] N := by
    unfold Scope.negate
    rw [htN]
    simp
  have hcharM : ∀ x, (Scope.hasKey (Scope.negAux [] N) x ↔ ∃ q ∈ N, x ∈ q.2) ∧
      (∀ y, y ∈ Scope.escOf (Scope.negAux [] N) x ↔ ∃ q ∈ N, q.1 = y ∧ x ∈ q.2) := by
    intro x
    obtain ⟨h1, h2⟩ := negAux_char N hUN [] x
    refine ⟨?_, ?_⟩
    · rw [h1]
      simp [Scope.hasKey, alookup]
    · intro y
      rw [h2 y]
      simp [Scope.escOf, alookup]
  set M := Scope.negAux [] N with hMdef
  have hndM : (M.map (·.1)).Nodup := negAux_keys_nodup N [] (by simp)
  rw [hnegX, hnegN]
  unfold Scope.dictEq
  rw [Bool.and_eq_true]
  constructor
  · rw [List.all_eq_true]
    intro q hq
    have hlqM : alookup M q.1 = some q.2 := alookup_of_mem_nodup M hndM q hq
    have hkM : Scope.hasKey M q.1 := by simp [Scope.hasKey, hlqM]
    obtain ⟨r, hr, hxr⟩ := ((hcharM q.1).1).mp hkM
    have hq1r : q.1 ∈ Scope.escOf N r.1 :=
      (exists_entry_iff_escOf N hndN q.1 r.1).mp ⟨r, hr, rfl, hxr⟩
    obtain ⟨p, hp, hp1, hpm⟩ := ((hcharN r.1).2 q.1).mp hq1r
    have hlX : alookup X q.1 = some p.2 := by
      rw [← hp1]
      exact alookup_of_mem_nodup X hXnd p hp
    rw [hlX]
    unfold setEqS
    rw [Bool.and_eq_true, List.all_eq_true, List.all_eq_true]
    constructor
    · intro y hy
      have hyM : y ∈ Scope.escOf M q.1 := by simp [Scope.escOf, hlqM, hy]
      obtain ⟨r2, hr2, hr21, hxr2⟩ := ((hcharM q.1).2 y).mp hyM
      have hq1y : q.1 ∈ Scope.escOf N y :=
        (exists_entry_iff_escOf N hndN q.1 y).mp ⟨r2, hr2, hr21, hxr2⟩
      obtain ⟨p2, hp2, hp21, hp2m⟩ := ((hcharN y).2 q.1).mp hq1y
      have hlX2 : alookup X q.1 = some p2.2 := by
        rw [← hp21]
        exact alookup_of_mem_nodup X hXnd p2 hp2
      rw [hlX] at hlX2
      have hv22 : p2.2 = p.2 := by
        injection hlX2 with h
        exact h.symm
      rw [hv22] at hp2m
      simpa using hp2m
    · intro y hy
      have hkNy : Scope.hasKey N y := ((hcharN y).1).mpr ⟨p, hp, hy⟩
      obtain ⟨val, hval⟩ := Option.isSome_iff_exists.mp hkNy
      have hq1y : q.1 ∈ Scope.escOf N y :=
        ((hcharN y).2 q.1).mpr ⟨p, hp, hp1, hy⟩
      have hyM : y ∈ Scope.escOf M q.1 := by
        apply ((hcharM q.1).2 y).mpr
        refine ⟨(y, val), alookup_eq_some_mem N y val hval, rfl, ?_⟩
        have : Scope.escOf N y = val := by simp [Scope.escOf, hval]
        rw [← this]
        exact hq1y
      rw [Scope.escOf, hlqM] at hyM
      simpa using hyM
  · rw [List.all_eq_true]
    intro p hp
    obtain ⟨v, hv⟩ := List.exists_mem_of_ne_nil p.2 (hEscNe p hp)
    have hkNv : Scope.hasKey N v := ((hcharN v).1).mpr ⟨p, hp, hv⟩
    obtain ⟨val, hval⟩ := Option.isSome_iff_exists.mp hkNv
    have hp1v : p.1 ∈ Scope.escOf N v := ((hcharN v).2 p.1).mpr ⟨p, hp, rfl, hv⟩
    have hkM : Scope.hasKey M p.1 := by
      apply ((hcharM p.1).1).mpr
      refine ⟨(v, val), alookup_eq_some_mem N v val hval, ?_⟩
      have : Scope.escOf N v = val := by simp [Scope.escOf, hval]
      rw [← this]
      exact hp1v
    exact hkM

/-- C8 witness: the amended double-negation theorem applied at a concrete
simplified scope with a non-empty escape set. -/
theorem C8_witness :
    Scope.dictEq (Scope.negate (Scope.negate [("STATIC_LINKING", ["COMPILE"])]))
      [("STATIC_LINKING", ["COMPILE"])] = true :=
  C8_amended_double_negation [("STATIC_LINKING", ["COMPILE"])]
    ⟨by decide, by decide⟩ (by decide) (Or.inr (Or.inr ⟨by decide, by decide⟩))

/-! ## Dual-license model (src/lict/utils/structure.py, DualUnit and
DualLicense)

A DualUnit is a Python dict with keys spdx_id, condition, exceptions
(structure.py lines 382-399); condition is either None or a string (the
constructor default is the empty string).  Equality compares all three
fields.  A group is a Python tuple of units, a DualLicense a Python set of
groups; the set is determinised here to a list in insertion order. -/

structure DualUnit where
  spdx_id : String
  condition : Option String
  exceptions : List String
deriving DecidableEq, Repr

abbrev DualGroup := List DualUnit

abbrev DualLicense := List DualGroup

/-- Python truthiness of the condition field: falsy iff None or the empty
string. -/
def condFalsy : Option String → Bool
  | none => true
  | some s => s = ""

/-- Python set.add on a group being built (sets are determinised to
duplicate-free lists in insertion order). -/
def gInsert (g : DualGroup) (u : DualUnit) : DualGroup :=
  if g.contains u then g else g ++ [u]

/-- DualLicense.__bool__ (structure.py lines 416-417): falsy iff the set is
empty or is exactly the singleton of the empty group. -/
def DualLicense.truthy (dl : DualLicense) : Bool :=
  !dl.isEmpty && decide (dl ≠ [[]])

/-- Modelled from the spec: the derived identifier `unit_spdx` of a
DualUnit.  The property is referenced throughout src/lict/parser/*.py
(for example compatible.py lines 144-185) but its definition is not part of
the sources under src/ — src/lict/utils/structure.py stops at the raw
dict fields.  Per the spec (section 3, DualUnit): unit_spdx equals
spdx_id + "-with-" + join(exceptions, "-with-") when exceptions are
non-empty, and the bare spdx_id otherwise. -/
def DualUnit.unit_spdx (u : DualUnit) : String :=
  if u.exceptions.isEmpty then u.spdx_id
  else String.intercalate "-with-" (u.spdx_id :: u.exceptions)

theorem intercalate_go_append (acc1 acc2 sep : String) (l : List String) :
    String.intercalate.go (acc1 ++ acc2) sep l = acc1 ++ String.intercalate.go acc2 sep l := by
  induction l generalizing acc2 with
  | nil => simp [String.intercalate.go]
  | cons x xs ih =>
      rw [String.intercalate.go, String.intercalate.go]
      rw [String.append_assoc, String.append_assoc]
      rw [← String.append_assoc acc2 sep x]
      exact ih (acc2 ++ sep ++ x)

/-- C9: for every DualUnit with a non-empty exceptions list, unit_spdx is
the spdx_id followed by "-with-" followed by the exceptions joined with
"-with-". -/
theorem C9_unit_spdx (u : DualUnit) (h : u.exceptions ≠ []) :
    u.unit_spdx = u.spdx_id ++ "-with-" ++ String.intercalate "-with-" u.exceptions := by
  unfold DualUnit.unit_spdx
  rw [if_neg (by simpa using h)]
  cases hx : u.exceptions with
  | nil => exact absurd hx h
  | cons e rest =>
      rw [String.intercalate, String.intercalate, String.intercalate.go]
      rw [intercalate_go_append (u.spdx_id ++ "-with-") e "-with-" rest]

/-- C9 witness: the theorem applied to a concrete unit with one
exception. -/
theorem C9_witness :
    (DualUnit.mk "GPL-2.0-only" (some "") ["Classpath-exception-2.0"]).unit_spdx =
      "GPL-2.0-only" ++ "-with-" ++
        String.intercalate "-with-" ["Classpath-exception-2.0"] :=
  C9_unit_spdx (DualUnit.mk "GPL-2.0-only" (some "") ["Classpath-exception-2.0"]) (by decide)

/-- A Python set insertion, determinised to a duplicate-free list in
insertion order. -/
def pyInsert {α : Type} [DecidableEq α] (l : List α) (x : α) : List α :=
  if l.contains x then l else l ++ [x]

/-- An element of a group built by DualLicense.add_condition: either a
DualUnit, or one of the tuples (license, condition) created at
structure.py line 444.  The name license is unbound in the module but
resolves to the interactive license printer that the site module installs
into builtins, so the tuple is (that fixed printer object, condition) and
two such tuples are equal exactly when their condition components are. -/
inductive CondEntry where
  | unit (u : DualUnit)
  | licPrinter (c : Option String)
deriving DecidableEq, Repr

/-- The unit loop of DualLicense.add_condition (structure.py lines
437-444).  Every unit first contributes a copy carrying the new condition;
a unit whose existing condition is falsy or equal to the new condition is
then also kept verbatim; any other unit instead contributes the two
(license, condition) printer tuples — silently, without raising. -/
def addCondUnit (cond : String) (acc : List CondEntry) (u : DualUnit) : List CondEntry :=
  if condFalsy u.condition || u.condition == some cond then
    pyInsert (pyInsert acc
      (CondEntry.unit (DualUnit.mk u.spdx_id (some cond) u.exceptions)))
      (CondEntry.unit u)
  else
    pyInsert (pyInsert (pyInsert acc
      (CondEntry.unit (DualUnit.mk u.spdx_id (some cond) u.exceptions)))
      (CondEntry.licPrinter u.condition))
      (CondEntry.licPrinter (some cond))

/-- One group of DualLicense.add_condition (structure.py lines 436-445). -/
def addCondGroup (cond : String) (g : DualGroup) : List CondEntry :=
  g.foldl (addCondUnit cond) []

/-- DualLicense.add_condition (structure.py lines 434-446): a total
function — it returns for every input, but the returned groups can contain
printer tuples in place of license units. -/
def DualLicense.add_condition (dl : DualLicense) (cond : String) : List (List CondEntry) :=
  dl.foldl (fun acc grp => pyInsert acc (addCondGroup cond grp)) []

theorem pyInsert_mem_self {α : Type} [DecidableEq α] (l : List α) (x : α) :
    x ∈ pyInsert l x := by
  unfold pyInsert
  by_cases h : l.contains x = true
  · rw [if_pos h]
    simpa using h
  · rw [if_neg h]
    simp

theorem pyInsert_mem_mono {α : Type} [DecidableEq α] (l : List α) (e x : α) (h : x ∈ l) :
    x ∈ pyInsert l e := by
  unfold pyInsert
  by_cases hc : l.contains e = true
  · rw [if_pos hc]
    exact h
  · rw [if_neg hc]
    simp [h]

theorem pyInsert_mem_cases {α : Type} [DecidableEq α] (l : List α) (e x : α)
    (h : x ∈ pyInsert l e) : x ∈ l ∨ x = e := by
  unfold pyInsert at h
  by_cases hc : l.contains e = true
  · rw [if_pos hc] at h
    exact Or.inl h
  · rw [if_neg hc] at h
    simpa using h

theorem addCondUnit_mono (cond : String) (acc : List CondEntry) (u : DualUnit)
    (x : CondEntry) (h : x ∈ acc) : x ∈ addCondUnit cond acc u := by
  unfold addCondUnit
  split
  · exact pyInsert_mem_mono _ _ _ (pyInsert_mem_mono _ _ _ h)
  · exact pyInsert_mem_mono _ _ _ (pyInsert_mem_mono _ _ _ (pyInsert_mem_mono _ _ _ h))

theorem addCondUnit_recond (cond : String) (acc : List CondEntry) (u : DualUnit) :
    CondEntry.unit (DualUnit.mk u.spdx_id (some cond) u.exceptions) ∈
      addCondUnit cond acc u := by
  unfold addCondUnit
  split
  · exact pyInsert_mem_mono _ _ _ (pyInsert_mem_self _ _)
  · exact pyInsert_mem_mono _ _ _ (pyInsert_mem_mono _ _ _ (pyInsert_mem_self _ _))

theorem addCondUnit_keep (cond : String) (acc : List CondEntry) (u : DualUnit)
    (h : condFalsy u.condition = true ∨ u.condition = some cond) :
    CondEntry.unit u ∈ addCondUnit cond acc u := by
  have hb : (condFalsy u.condition || u.condition == some cond) = true := by
    rcases h with h | h
    · simp [h]
    · simp [h]
  unfold addCondUnit
  rw [if_pos hb]
  exact pyInsert_mem_self _ _

theorem addCondUnit_printer (cond : String) (acc : List CondEntry) (u : DualUnit)
    (h1 : condFalsy u.condition = false) (h2 : u.condition ≠ some cond) :
    CondEntry.licPrinter u.condition ∈ addCondUnit cond acc u ∧
    CondEntry.licPrinter (some cond) ∈ addCondUnit cond acc u := by
  have hb : ¬((condFalsy u.condition || u.condition == some cond) = true) := by
    simp [h1, h2]
  unfold addCondUnit
  rw [if_neg hb]
  exact ⟨pyInsert_mem_mono _ _ _ (pyInsert_mem_self _ _), pyInsert_mem_self _ _⟩

theorem addCondUnit_mem_cases (cond : String) (acc : List CondEntry) (u : DualUnit)
    (x : CondEntry) (h : x ∈ addCondUnit cond acc u) :
    x ∈ acc ∨ x = CondEntry.unit (DualUnit.mk u.spdx_id (some cond) u.exceptions) ∨
    ((condFalsy u.condition = true ∨ u.condition = some cond) ∧ x = CondEntry.unit u) ∨
    (condFalsy u.condition = false ∧ u.condition ≠ some cond ∧
      (x = CondEntry.licPrinter u.condition ∨ x = CondEntry.licPrinter (some cond))) := by
  unfold addCondUnit at h
  by_cases hb : (condFalsy u.condition || u.condition == some cond) = true
  · rw [if_pos hb] at h
    rcases pyInsert_mem_cases _ _ _ h with h2 | h2
    · rcases pyInsert_mem_cases _ _ _ h2 with h3 | h3
      · exact Or.inl h3
      · exact Or.inr (Or.inl h3)
    · refine Or.inr (Or.inr (Or.inl ⟨?_, h2⟩))
      rcases Bool.or_eq_true _ _ |>.mp hb with h3 | h3
      · exact Or.inl h3
      · exact Or.inr (by simpa using h3)
  · rw [if_neg hb] at h
    have hsplit : condFalsy u.condition = false ∧ u.condition ≠ some cond := by
      constructor
      · cases hf : condFalsy u.condition
        · rfl
        · exact absurd (by simp [hf]) hb
      · intro hc
        exact hb (by simp [hc])
    rcases pyInsert_mem_cases _ _ _ h with h2 | h2
    · rcases pyInsert_mem_cases _ _ _ h2 with h3 | h3
      · rcases pyInsert_mem_cases _ _ _ h3 with h4 | h4
        · exact Or.inl h4
        · exact Or.inr (Or.inl h4)
      · exact Or.inr (Or.inr (Or.inr ⟨hsplit.1, hsplit.2, Or.inl h3⟩))
    · exact Or.inr (Or.inr (Or.inr ⟨hsplit.1, hsplit.2, Or.inr h2⟩))

theorem condFoldC_mono (cond : String) : ∀ (g : DualGroup) (acc : List CondEntry)
    (x : CondEntry), x ∈ acc → x ∈ g.foldl (addCondUnit cond) acc := by
  intro g
  induction g with
  | nil => intro acc x h; exact h
  | cons v rest ih =>
    intro acc x h
    exact ih _ x (addCondUnit_mono cond acc v x h)

theorem addCondGroup_unit_spec (cond : String) : ∀ (g : DualGroup) (acc : List CondEntry)
    (u : DualUnit), u ∈ g →
    CondEntry.unit (DualUnit.mk u.spdx_id (some cond) u.exceptions) ∈
      g.foldl (addCondUnit cond) acc ∧
    ((condFalsy u.condition = true ∨ u.condition = some cond) →
      CondEntry.unit u ∈ g.foldl (addCondUnit cond) acc) ∧
    (condFalsy u.condition = false → u.condition ≠ some cond →
      CondEntry.licPrinter u.condition ∈ g.foldl (addCondUnit cond) acc ∧
      CondEntry.licPrinter (some cond) ∈ g.foldl (addCondUnit cond) acc) := by
  intro g
  induction g with
  | nil => intro acc u h; exact absurd h (List.not_mem_nil u)
  | cons v rest ih =>
    intro acc u h
    rcases List.mem_cons.mp h with h1 | h1
    · subst h1
      refine ⟨condFoldC_mono cond rest _ _ (addCondUnit_recond cond acc u), fun hg =>
        condFoldC_mono cond rest _ _ (addCondUnit_keep cond acc u hg), fun h1 h2 => ?_⟩
      have := addCondUnit_printer cond acc u h1 h2
      exact ⟨condFoldC_mono cond rest _ _ this.1, condFoldC_mono cond rest _ _ this.2⟩
    · exact ih _ u h1

theorem addCondGroup_mem_cases (cond : String) : ∀ (g : DualGroup) (acc : List CondEntry)
    (x : CondEntry), x ∈ g.foldl (addCondUnit cond) acc →
    x ∈ acc ∨ ∃ u, u ∈ g ∧
      (x = CondEntry.unit (DualUnit.mk u.spdx_id (some cond) u.exceptions) ∨
       ((condFalsy u.condition = true ∨ u.condition = some cond) ∧ x = CondEntry.unit u) ∨
       (condFalsy u.condition = false ∧ u.condition ≠ some cond ∧
         (x = CondEntry.licPrinter u.condition ∨ x = CondEntry.licPrinter (some cond)))) := by
  intro g
  induction g with
  | nil => intro acc x h; exact Or.inl h
  | cons v rest ih =>
    intro acc x h
    rcases ih _ x h with h1 | ⟨u, hu, hshape⟩
    · rcases addCondUnit_mem_cases cond acc v x h1 with h2 | h2 | h2 | h2
      · exact Or.inl h2
      · exact Or.inr ⟨v, List.mem_cons_self v rest, Or.inl h2⟩
      · exact Or.inr ⟨v, List.mem_cons_self v rest, Or.inr (Or.inl h2)⟩
      · exact Or.inr ⟨v, List.mem_cons_self v rest, Or.inr (Or.inr h2)⟩
    · exact Or.inr ⟨u, List.mem_cons_of_mem v hu, hshape⟩

theorem addCondFold_mono (cond : String) : ∀ (dl : DualLicense)
    (acc : List (List CondEntry)) (g2 : List CondEntry), g2 ∈ acc →
    g2 ∈ dl.foldl (fun a grp => pyInsert a (addCondGroup cond grp)) acc := by
  intro dl
  induction dl with
  | nil => intro acc g2 h; exact h
  | cons grp rest ih =>
    intro acc g2 h
    exact ih _ g2 (pyInsert_mem_mono _ _ _ h)

theorem addCondFold_self (cond : String) : ∀ (dl : DualLicense)
    (acc : List (List CondEntry)) (grp : DualGroup), grp ∈ dl →
    addCondGroup cond grp ∈ dl.foldl (fun a g => pyInsert a (addCondGroup cond g)) acc := by
  intro dl
  induction dl with
  | nil => intro acc grp h; exact absurd h (List.not_mem_nil grp)
  | cons g0 rest ih =>
    intro acc grp h
    rcases List.mem_cons.mp h with h1 | h1
    · subst h1
      exact addCondFold_mono cond rest _ _ (pyInsert_mem_self _ _)
    · exact ih _ grp h1

theorem addCondFold_cases (cond : String) : ∀ (dl : DualLicense)
    (acc : List (List CondEntry)) (g2 : List CondEntry),
    g2 ∈ dl.foldl (fun a grp => pyInsert a (addCondGroup cond grp)) acc →
    g2 ∈ acc ∨ ∃ grp, grp ∈ dl ∧ g2 = addCondGroup cond grp := by
  intro dl
  induction dl with
  | nil => intro acc g2 h; exact Or.inl h
  | cons g0 rest ih =>
    intro acc g2 h
    rcases ih _ g2 h with h1 | ⟨grp, hg, he⟩
    · rcases pyInsert_mem_cases _ _ _ h1 with h2 | h2
      · exact Or.inl h2
      · exact Or.inr ⟨g0, List.mem_cons_self g0 rest, h2⟩
    · exact Or.inr ⟨grp, List.mem_cons_of_mem g0 hg, he⟩

/-- C10 counterexample: on the input the claim says crashes — a unit whose
condition COMPILE differs from the added STATIC_LINKING — add_condition
RETURNS (no unbound-variable error: the name license resolves to the
builtins license printer installed by the site module) and the group holds
the re-conditioned unit plus the two printer tuples. -/
theorem C10_counterexample :
    DualLicense.add_condition [[DualUnit.mk "MIT" (some "COMPILE") []]] "STATIC_LINKING" =
      [[CondEntry.unit (DualUnit.mk "MIT" (some "STATIC_LINKING") []),
        CondEntry.licPrinter (some "COMPILE"),
        CondEntry.licPrinter (some "STATIC_LINKING")]] := by
  decide

/-- C10 (amended): DualLicense.add_condition is total and never raises,
but silently corrupts.  Per unit of an input group: the re-conditioned
copy is always in the produced group; the original unit is also kept when
its condition is falsy or equals the new one; a unit with any other
condition contributes the two (builtins license printer, condition)
tuples instead.  Every element of a produced group arises in exactly one
of these ways, every input group produces its processed group, and every
produced group comes from an input group. -/
theorem C10_add_condition_corruption :
    (∀ (cond : String) (g : DualGroup) (u : DualUnit), u ∈ g →
      CondEntry.unit (DualUnit.mk u.spdx_id (some cond) u.exceptions) ∈
        addCondGroup cond g ∧
      ((condFalsy u.condition = true ∨ u.condition = some cond) →
        CondEntry.unit u ∈ addCondGroup cond g) ∧
      (condFalsy u.condition = false → u.condition ≠ some cond →
        CondEntry.licPrinter u.condition ∈ addCondGroup cond g ∧
        CondEntry.licPrinter (some cond) ∈ addCondGroup cond g)) ∧
    (∀ (cond : String) (g : DualGroup) (x : CondEntry), x ∈ addCondGroup cond g →
      ∃ u, u ∈ g ∧
        (x = CondEntry.unit (DualUnit.mk u.spdx_id (some cond) u.exceptions) ∨
         ((condFalsy u.condition = true ∨ u.condition = some cond) ∧
           x = CondEntry.unit u) ∨
         (condFalsy u.condition = false ∧ u.condition ≠ some cond ∧
           (x = CondEntry.licPrinter u.condition ∨
            x = CondEntry.licPrinter (some cond))))) ∧
    (∀ (cond : String) (dl : DualLicense) (grp : DualGroup), grp ∈ dl →
      addCondGroup cond grp ∈ DualLicense.add_condition dl cond) ∧
    (∀ (cond : String) (dl : DualLicense) (g2 : List CondEntry),
      g2 ∈ DualLicense.add_condition dl cond →
      ∃ grp, grp ∈ dl ∧ g2 = addCondGroup cond grp) := by
  refine ⟨?_, ?_, ?_, ?_⟩
  · intro cond g u h
    exact addCondGroup_unit_spec cond g [] u h
  · intro cond g x h
    rcases addCondGroup_mem_cases cond g [] x h with h1 | h1
    · exact absurd h1 (List.not_mem_nil x)
    · exact h1
  · intro cond dl grp h
    exact addCondFold_self cond dl [] grp h
  · intro cond dl g2 h
    rcases addCondFold_cases cond dl [] g2 h with h1 | h1
    · exact absurd h1 (List.not_mem_nil g2)
    · exact h1

/-- C10 witness: the amended theorem applied at the counterexample input —
both printer tuples are members of the produced group. -/
theorem C10_witness :
    CondEntry.licPrinter (some "COMPILE") ∈
      addCondGroup "STATIC_LINKING" [DualUnit.mk "MIT" (some "COMPILE") []] ∧
    CondEntry.licPrinter (some "STATIC_LINKING") ∈
      addCondGroup "STATIC_LINKING" [DualUnit.mk "MIT" (some "COMPILE") []] :=
  (C10_add_condition_corruption.1 "STATIC_LINKING"
    [DualUnit.mk "MIT" (some "COMPILE") []] (DualUnit.mk "MIT" (some "COMPILE") [])
    (by decide)).2.2 (by decide) (by decide)

/-! ## Compatibility graph (src/lict/utils/graph.py, src/lict/constants.py)

The compatible graph is a networkx MultiDiGraph wrapped by GraphManager.
It is modelled as the list of its edges in insertion (key) order; edge
attributes scope (a serialised Scope in the source, kept as a Scope here —
Scope.from_str of str(s) restores the dict) and path are optional and
absent keys are modelled as none.  query_edge_by_label (graph.py lines
316-354) returns the matching edges in key order; with a compatibility
keyword it keeps only edges whose stored compatibility equals it
(_compare_edge, lines 356-375).  remove_edge on every index returned by a
compatibility query deletes exactly the matching edges. -/

inductive CompatibleType where
  | UNCONDITIONAL_COMPATIBLE
  | CONDITIONAL_COMPATIBLE
  | PARTIAL_INCOMPATIBLE
  | INCOMPATIBLE
  | UNKNOWN
deriving DecidableEq, Repr

structure Edge where
  u : String
  v : String
  compatibility : CompatibleType
  scope : Option Scope := none
  rule : String := ""
  path : Option String := none
deriving DecidableEq, Repr

abbrev Graph := List Edge

/-- query_edge_by_label(a, b) with no attribute filter. -/
def queryEdge (g : Graph) (a b : String) : List Edge :=
  g.filter (fun e => e.u == a && e.v == b)

/-- query_edge_by_label(a, b, compatibility=c). -/
def queryEdgeCompat (g : Graph) (a b : String) (c : CompatibleType) : List Edge :=
  g.filter (fun e => e.u == a && e.v == b && e.compatibility == c)

/-- GraphManager.add_edge: a new edge receives the next key, i.e. is
appended. -/
def addEdge (g : Graph) (e : Edge) : Graph := g ++ [e]

/-- Removing every edge index returned by a compatibility query
(rm loops in infer.py, e.g. lines 324-333). -/
def rmEdgesCompat (g : Graph) (a b : String) (c : CompatibleType) : Graph :=
  g.filter (fun e => !(e.u == a && e.v == b && e.compatibility == c))

/-- The scope actually compared by Checker.check_compatibility
(src/lict/checker.py lines 87-88): a missing or falsy caller scope is
replaced by the empty Scope(). -/
def callerScope (scope : Option Scope) : Scope :=
  match scope with
  | some s => if Scope.truthy s then s else []
  | none => []

/-- Checker.check_compatibility (src/lict/checker.py lines 50-100).  The
first edge A→B is consulted; a CONDITIONAL_COMPATIBLE edge compares the
caller scope against the stored scope with Scope.__contains__; other
labels are returned as stored; no edge yields UNKNOWN (after a warning).
A CONDITIONAL edge without a stored scope would raise KeyError in the
source and is an error here. -/
def Checker.check_compatibility (g : Graph) (a b : String) (scope : Option Scope) :
    Except String CompatibleType :=
  match queryEdge g a b with
  | [] => Except.ok CompatibleType.UNKNOWN
  | e :: _ =>
    if e.compatibility = CompatibleType.CONDITIONAL_COMPATIBLE then
      match e.scope with
      | none => Except.error "KeyError: scope"
      | some compatible_scope =>
          if Scope.scontains compatible_scope (callerScope scope) then
            Except.ok CompatibleType.CONDITIONAL_COMPATIBLE
          else
            Except.ok CompatibleType.INCOMPATIBLE
    else Except.ok e.compatibility

/-- C2: Checker.check_compatibility returns UNKNOWN when the graph holds no
edge A→B; returns the stored label for UNCONDITIONAL_COMPATIBLE and
INCOMPATIBLE first edges; and for a CONDITIONAL_COMPATIBLE first edge with
stored scope S it returns CONDITIONAL_COMPATIBLE when the caller scope (the
empty scope when omitted or falsy) is contained in S and INCOMPATIBLE
otherwise. -/
theorem C2_checker_check_compatibility (g : Graph) (a b : String) (scope : Option Scope) :
    (queryEdge g a b = [] →
      Checker.check_compatibility g a b scope = Except.ok CompatibleType.UNKNOWN) ∧
    (∀ e rest, queryEdge g a b = e :: rest →
      (e.compatibility = CompatibleType.UNCONDITIONAL_COMPATIBLE →
        Checker.check_compatibility g a b scope =
          Except.ok CompatibleType.UNCONDITIONAL_COMPATIBLE) ∧
      (e.compatibility = CompatibleType.INCOMPATIBLE →
        Checker.check_compatibility g a b scope = Except.ok CompatibleType.INCOMPATIBLE) ∧
      (∀ S, e.compatibility = CompatibleType.CONDITIONAL_COMPATIBLE → e.scope = some S →
        Checker.check_compatibility g a b scope =
          Except.ok (if Scope.scontains S (callerScope scope)
            then CompatibleType.CONDITIONAL_COMPATIBLE
            else CompatibleType.INCOMPATIBLE))) := by
  constructor
  · intro hq
    unfold Checker.check_compatibility
    rw [hq]
  · intro e rest hq
    refine ⟨?_, ?_, ?_⟩
    · intro hc
      unfold Checker.check_compatibility
      rw [hq]
      simp [hc]
    · intro hc
      unfold Checker.check_compatibility
      rw [hq]
      simp [hc]
    · intro S hc hs
      unfold Checker.check_compatibility
      rw [hq]
      simp only [hc, if_pos rfl, hs]
      by_cases hin : Scope.scontains S (callerScope scope)
      · simp [hin]
      · simp [hin]

/-- C2 witness: the theorem applied at concrete graphs — an empty graph
yields UNKNOWN and a conditional edge whose scope covers the caller scope
yields CONDITIONAL_COMPATIBLE. -/
theorem C2_witness :
    Checker.check_compatibility [] "LGPL-2.1-only" "Apache-2.0" none =
      Except.ok CompatibleType.UNKNOWN ∧
    Checker.check_compatibility
      [Edge.mk "LGPL-2.1-only" "Apache-2.0" CompatibleType.CONDITIONAL_COMPATIBLE
        (some [(UNIVERSE, ["STATIC_LINKING"])]) "ClauseConflictRule" none]
      "LGPL-2.1-only" "Apache-2.0" (some [("DYNAMIC_LINKING", [])]) =
      Except.ok CompatibleType.CONDITIONAL_COMPATIBLE := by
  constructor
  · exact (C2_checker_check_compatibility [] "LGPL-2.1-only" "Apache-2.0" none).1 rfl
  · have h := ((C2_checker_check_compatibility
      [Edge.mk "LGPL-2.1-only" "Apache-2.0" CompatibleType.CONDITIONAL_COMPATIBLE
        (some [(UNIVERSE, ["STATIC_LINKING"])]) "ClauseConflictRule" none]
      "LGPL-2.1-only" "Apache-2.0" (some [("DYNAMIC_LINKING", [])])).2
      (Edge.mk "LGPL-2.1-only" "Apache-2.0" CompatibleType.CONDITIONAL_COMPATIBLE
        (some [(UNIVERSE, ["STATIC_LINKING"])]) "ClauseConflictRule" none) [] rfl).2.2
      [(UNIVERSE, ["STATIC_LINKING"])] rfl rfl
    rw [h]
    decide

/-! ## Pass B pairwise filtering
(src/lict/parser/compatible.py, BaseCompatiblityParser) -/

/-- BaseCompatiblityParser.check_compatiblity (compatible.py lines 71-106):
query both directions through the Checker; return the first direction that
lands in the acceptable set (CONDITIONAL, UNCONDITIONAL, plus UNKNOWN when
unknown licenses are ignored), otherwise INCOMPATIBLE. -/
def parserCheckCompatiblity (g : Graph) (a b : String) (scope_a scope_b : Option Scope)
    (ignore_unk : Bool) : Except String CompatibleType :=
  let compatible_results : List CompatibleType :=
    if ignore_unk then
      [CompatibleType.CONDITIONAL_COMPATIBLE, CompatibleType.UNCONDITIONAL_COMPATIBLE,
        CompatibleType.UNKNOWN]
    else
      [CompatibleType.CONDITIONAL_COMPATIBLE, CompatibleType.UNCONDITIONAL_COMPATIBLE]
  match Checker.check_compatibility g a b scope_a, Checker.check_compatibility g b a scope_b with
  | Except.ok a2b, Except.ok b2a =>
      if compatible_results.contains a2b || compatible_results.contains b2a then
        Except.ok (if compatible_results.contains a2b then a2b else b2a)
      else
        Except.ok CompatibleType.INCOMPATIBLE
  | Except.error e, _ => Except.error e
  | _, Except.error e => Except.error e

/-- An element of the conflicts set of filter_dual_license: the code stores
frozensets of unit_spdx strings, but the first loop also probes the set
with a frozenset holding a DualUnit dict (compatible.py line 146), which
can never equal a set of strings; both shapes are modelled so that probe
evaluates faithfully. -/
inductive CAtom where
  | s (x : String)
  | u (x : DualUnit)
deriving DecidableEq, Repr

abbrev Conflict := List CAtom

/-- Python frozenset equality (order-insensitive). -/
def conflictEq (a b : Conflict) : Bool := a.all b.contains && b.all a.contains

/-- Python set membership over a set of frozensets. -/
def conflictsHas (cs : List Conflict) (c : Conflict) : Bool := cs.any (conflictEq c)

/-- Python set.add over a set of frozensets. -/
def conflictsAdd (cs : List Conflict) (c : Conflict) : List Conflict :=
  if conflictsHas cs c then cs else cs ++ [c]

/-- frozenset((a, b)) of two strings. -/
def mkPairC (a b : String) : Conflict :=
  if a == b then [CAtom.s a] else [CAtom.s a, CAtom.s b]

/-- Unit iteration of the first (blacklist) loop of filter_dual_license
(compatible.py lines 144-151): the state is (rm_flag, conflicts). -/
def blacklistUnitStep (blacklist : List String) (st : Bool × List Conflict) (lic : DualUnit) :
    Bool × List Conflict :=
  let rm1 := st.1 || conflictsHas st.2 [CAtom.u lic]
  if blacklist.contains lic.unit_spdx then
    (true, conflictsAdd st.2 [CAtom.s lic.unit_spdx])
  else (rm1, st.2)

/-- Group iteration of the first loop of filter_dual_license (compatible.py
lines 139-154): groups already removed are skipped; a flagged group is
removed from the working copy. -/
def blacklistGroupStep (blacklist : List String) (st : DualLicense × List Conflict)
    (group : DualGroup) : DualLicense × List Conflict :=
  if !st.1.contains group then st
  else
    let r := group.foldl (blacklistUnitStep blacklist) (false, st.2)
    if r.1 then (st.1.filter (fun h => h ≠ group), r.2) else (st.1, r.2)

/-- The first loop of filter_dual_license over the original DualLicense,
starting from its working copy and an empty conflict set. -/
def blacklistPass (dl : DualLicense) (blacklist : List String) : DualLicense × List Conflict :=
  dl.foldl (blacklistGroupStep blacklist) (dl, [])

/-- itertools.combinations(l, 2) in order. -/
def combos {α : Type} : List α → List (α × α)
  | [] => []
  | x :: xs => xs.map (fun y => (x, y)) ++ combos xs

/-- One pair of the second loop of filter_dual_license (compatible.py lines
165-180).  The state is (group_rm_flag, conflicts, query log); the log
records every invocation of check_compatiblity, absent from the source,
to let theorems speak about which pairwise queries were issued. -/
def pairStep (g : Graph) (ignore_unk : Bool)
    (st : Bool × List Conflict × List (String × String)) (pr : DualUnit × DualUnit) :
    Except String (Bool × List Conflict × List (String × String)) :=
  if pr.1.spdx_id == pr.2.spdx_id then Except.ok st
  else if conflictsHas st.2.1 (mkPairC pr.1.unit_spdx pr.2.unit_spdx) then
    Except.ok (true, st.2.1, st.2.2)
  else
    match parserCheckCompatiblity g pr.1.unit_spdx pr.2.unit_spdx
        (if condFalsy pr.1.condition then none else some [(pr.1.condition.getD "", [])])
        (if condFalsy pr.2.condition then none else some [(pr.2.condition.getD "", [])])
        ignore_unk with
    | Except.error e => Except.error e
    | Except.ok result =>
        if result = CompatibleType.INCOMPATIBLE then
          Except.ok (true, conflictsAdd st.2.1 (mkPairC pr.1.unit_spdx pr.2.unit_spdx),
            st.2.2 ++ [(pr.1.unit_spdx, pr.2.unit_spdx)])
        else
          Except.ok (st.1, st.2.1, st.2.2 ++ [(pr.1.unit_spdx, pr.2.unit_spdx)])

/-- Group iteration of the second loop of filter_dual_license (compatible.py
lines 156-183): skip removed groups, drop unknown units when ignore_unk,
walk all pairs of distinct units, remove the group when flagged. -/
def pairwiseGroupStep (g : Graph) (licExists : String → Bool) (ignore_unk : Bool)
    (st : DualLicense × List Conflict × List (String × String)) (group : DualGroup) :
    Except String (DualLicense × List Conflict × List (String × String)) :=
  if !st.1.contains group then Except.ok st
  else
    let new_group := group.filter (fun x => licExists x.unit_spdx || !ignore_unk)
    match (combos new_group).foldlM (pairStep g ignore_unk) (false, st.2.1, st.2.2) with
    | Except.error e => Except.error e
    | Except.ok (flag, conf, log) =>
        if flag then Except.ok (st.1.filter (fun h => h ≠ group), conf, log)
        else Except.ok (st.1, conf, log)

/-- BaseCompatiblityParser.filter_dual_license (compatible.py lines
108-185). -/
def filter_dual_license (g : Graph) (licExists : String → Bool) (dual_lic : DualLicense)
    (blacklist : List String) (ignore_unk : Bool) :
    Except String (DualLicense × List Conflict × List (String × String)) :=
  if !dual_lic.truthy then Except.ok ([], [], [])
  else
    let bp := blacklistPass dual_lic blacklist
    dual_lic.foldlM (pairwiseGroupStep g licExists ignore_unk) (bp.1, bp.2, [])

example :
    filter_dual_license [] (fun _ => true)
      [[DualUnit.mk "CC-BY-NC-4.0" (some "") []]] ["CC-BY-NC-4.0"] false =
      Except.ok ([], [[CAtom.s "CC-BY-NC-4.0"]], []) := by decide

theorem conflictEq_refl (c : Conflict) : conflictEq c c = true := by
  simp [conflictEq]

theorem conflictsHas_append (cs ds : List Conflict) (c : Conflict) :
    conflictsHas (cs ++ ds) c = (conflictsHas cs c || conflictsHas ds c) := by
  unfold conflictsHas
  exact List.any_append

theorem conflictsHas_add_mono (cs : List Conflict) (c c' : Conflict)
    (h : conflictsHas cs c = true) : conflictsHas (conflictsAdd cs c') c = true := by
  unfold conflictsAdd
  split
  · exact h
  · rw [conflictsHas_append]
    simp [h]

theorem conflictsHas_add_self (cs : List Conflict) (c : Conflict) :
    conflictsHas (conflictsAdd cs c) c = true := by
  unfold conflictsAdd
  by_cases h : conflictsHas cs c
  · simp [h]
  · rw [if_neg h, conflictsHas_append]
    simp [conflictsHas, conflictEq_refl]

theorem blacklistUnitStep_mono (bl : List String) (st : Bool × List Conflict) (lic : DualUnit) :
    (st.1 = true → (blacklistUnitStep bl st lic).1 = true) ∧
    (∀ c, conflictsHas st.2 c = true → conflictsHas (blacklistUnitStep bl st lic).2 c = true) := by
  unfold blacklistUnitStep
  by_cases hb : bl.contains lic.unit_spdx
  · simp only [hb, if_true]
    exact ⟨fun _ => trivial, fun c h => conflictsHas_add_mono _ _ _ h⟩
  · simp only [hb, if_false]
    exact ⟨fun h => by simp [h], fun c h => h⟩

theorem unitFold_mono (bl : List String) (grp : DualGroup) (st : Bool × List Conflict) :
    (st.1 = true → (grp.foldl (blacklistUnitStep bl) st).1 = true) ∧
    (∀ c, conflictsHas st.2 c = true →
      conflictsHas (grp.foldl (blacklistUnitStep bl) st).2 c = true) := by
  induction grp generalizing st with
  | nil => exact ⟨id, fun _ h => h⟩
  | cons lic rest ih =>
      simp only [List.foldl_cons]
      obtain ⟨m1, m2⟩ := blacklistUnitStep_mono bl st lic
      obtain ⟨i1, i2⟩ := ih (blacklistUnitStep bl st lic)
      exact ⟨fun h => i1 (m1 h), fun c h => i2 c (m2 c h)⟩

theorem unitFold_spec (bl : List String) (grp : DualGroup) (st : Bool × List Conflict)
    (u : DualUnit) (hu : u ∈ grp) (hb : bl.contains u.unit_spdx = true) :
    (grp.foldl (blacklistUnitStep bl) st).1 = true ∧
    conflictsHas (grp.foldl (blacklistUnitStep bl) st).2 [CAtom.s u.unit_spdx] = true := by
  induction grp generalizing st with
  | nil => simp at hu
  | cons lic rest ih =>
      simp only [List.foldl_cons]
      rcases List.mem_cons.mp hu with rfl | hu
      · have hstep : (blacklistUnitStep bl st u).1 = true ∧
            conflictsHas (blacklistUnitStep bl st u).2 [CAtom.s u.unit_spdx] = true := by
          unfold blacklistUnitStep
          simp only [hb, if_true]
          exact ⟨trivial, conflictsHas_add_self _ _⟩
        obtain ⟨f1, f2⟩ := unitFold_mono bl rest (blacklistUnitStep bl st u)
        exact ⟨f1 hstep.1, f2 _ hstep.2⟩
      · exact ih (blacklistUnitStep bl st lic) hu

theorem blacklistGroupStep_mono (bl : List String) (st : DualLicense × List Conflict)
    (grp : DualGroup) (q : DualGroup) :
    (q ∉ st.1 → q ∉ (blacklistGroupStep bl st grp).1) ∧
    (∀ c, conflictsHas st.2 c = true →
      conflictsHas (blacklistGroupStep bl st grp).2 c = true) := by
  unfold blacklistGroupStep
  by_cases hc : st.1.contains grp
  · simp only [hc, Bool.not_true, Bool.false_eq_true, if_false]
    by_cases hflag : (grp.foldl (blacklistUnitStep bl) (false, st.2)).1
    · simp only [hflag, if_true]
      constructor
      · intro hq hmem
        exact hq (List.mem_of_mem_filter hmem)
      · exact fun c h => (unitFold_mono bl grp (false, st.2)).2 c h
    · simp only [hflag, if_false]
      exact ⟨id, fun c h => (unitFold_mono bl grp (false, st.2)).2 c h⟩
  · simp only [hc, Bool.not_false, if_true]
    exact ⟨id, fun _ h => h⟩

theorem blacklistGroupStep_keep (bl : List String) (st : DualLicense × List Conflict)
    (h : DualGroup) (q : DualGroup) (hne : q ≠ h) (hq : q ∈ st.1) :
    q ∈ (blacklistGroupStep bl st h).1 := by
  unfold blacklistGroupStep
  by_cases hc : st.1.contains h
  · simp only [hc, Bool.not_true, Bool.false_eq_true, if_false]
    by_cases hflag : (h.foldl (blacklistUnitStep bl) (false, st.2)).1
    · simp only [hflag, if_true]
      simp only [List.mem_filter]
      exact ⟨hq, by simpa using hne⟩
    · simp only [hflag, if_false]
      exact hq
  · simp only [hc, Bool.not_false, if_true]
    exact hq

theorem blacklistGroupStep_hit (bl : List String) (st : DualLicense × List Conflict)
    (grp : DualGroup) (u : DualUnit) (hu : u ∈ grp) (hb : bl.contains u.unit_spdx = true)
    (hin : st.1.contains grp = true) :
    grp ∉ (blacklistGroupStep bl st grp).1 ∧
    conflictsHas (blacklistGroupStep bl st grp).2 [CAtom.s u.unit_spdx] = true := by
  unfold blacklistGroupStep
  obtain ⟨hf, hs⟩ := unitFold_spec bl grp (false, st.2) u hu hb
  simp only [hin, Bool.not_true, Bool.false_eq_true, if_false, hf, if_true]
  constructor
  · intro hmem
    simp only [List.mem_filter] at hmem
    simp at hmem
  · exact hs

theorem foldBL_mono (bl : List String) (l : DualLicense) (st : DualLicense × List Conflict)
    (q : DualGroup) :
    (q ∉ st.1 → q ∉ (l.foldl (blacklistGroupStep bl) st).1) ∧
    (∀ c, conflictsHas st.2 c = true →
      conflictsHas (l.foldl (blacklistGroupStep bl) st).2 c = true) := by
  induction l generalizing st with
  | nil => exact ⟨id, fun _ h => h⟩
  | cons h rest ih =>
      simp only [List.foldl_cons]
      obtain ⟨m1, m2⟩ := blacklistGroupStep_mono bl st h q
      obtain ⟨i1, i2⟩ := ih (blacklistGroupStep bl st h)
      exact ⟨fun hq => i1 (m1 hq), fun c hc => i2 c (m2 c hc)⟩

theorem foldBL_spec (bl : List String) (l : DualLicense) :
    ∀ (st : DualLicense × List Conflict) (grp : DualGroup) (u : DualUnit),
      grp ∈ l → u ∈ grp → bl.contains u.unit_spdx = true →
      (grp ∈ st.1 ∨ conflictsHas st.2 [CAtom.s u.unit_spdx] = true) →
      grp ∉ (l.foldl (blacklistGroupStep bl) st).1 ∧
      conflictsHas (l.foldl (blacklistGroupStep bl) st).2 [CAtom.s u.unit_spdx] = true := by
  induction l with
  | nil =>
      intro st grp u hg
      simp at hg
  | cons h rest ih =>
      intro st grp u hg hu hb hpre
      simp only [List.foldl_cons]
      by_cases heq : grp = h
      · subst heq
        by_cases hin : st.1.contains grp
        · obtain ⟨h1, h2⟩ := blacklistGroupStep_hit bl st grp u hu hb hin
          obtain ⟨m1, m2⟩ := foldBL_mono bl rest (blacklistGroupStep bl st grp) grp
          exact ⟨m1 h1, m2 _ h2⟩
        · have hinf : st.1.contains grp = false := by
            simpa using hin
          have hstep : blacklistGroupStep bl st grp = st := by
            unfold blacklistGroupStep
            rw [hinf]
            simp
          rw [hstep]
          have hnm : grp ∉ st.1 := by simpa using hin
          rcases hpre with hmem | hconf
          · exact absurd hmem hnm
          · obtain ⟨m1, m2⟩ := foldBL_mono bl rest st grp
            exact ⟨m1 hnm, m2 _ hconf⟩
      · have hg' : grp ∈ rest := by
          rcases List.mem_cons.mp hg with h0 | h0
          · exact absurd h0 heq
          · exact h0
        apply ih (blacklistGroupStep bl st h) grp u hg' hu hb
        rcases hpre with hmem | hconf
        · exact Or.inl (blacklistGroupStep_keep bl st h grp heq hmem)
        · exact Or.inr ((blacklistGroupStep_mono bl st h grp).2 _ hconf)

theorem pairStep_conf_mono (g : Graph) (iu : Bool)
    (st : Bool × List Conflict × List (String × String)) (pr : DualUnit × DualUnit)
    (st' : Bool × List Conflict × List (String × String))
    (h : pairStep g iu st pr = Except.ok st') (c : Conflict)
    (hc : conflictsHas st.2.1 c = true) : conflictsHas st'.2.1 c = true := by
  unfold pairStep at h
  split at h
  · injection h with h
    rw [← h]
    exact hc
  · split at h
    · injection h with h
      rw [← h]
      exact hc
    · split at h
      · exact absurd h (by simp)
      · split at h
        · injection h with h
          rw [← h]
          exact conflictsHas_add_mono _ _ _ hc
        · injection h with h
          rw [← h]
          exact hc

theorem pairsFoldM_conf_mono (g : Graph) (iu : Bool) :
    ∀ (prs : List (DualUnit × DualUnit)) (st st' : Bool × List Conflict × List (String × String)),
      List.foldlM (pairStep g iu) st prs = Except.ok st' →
      ∀ c, conflictsHas st.2.1 c = true → conflictsHas st'.2.1 c = true := by
  intro prs
  induction prs with
  | nil =>
      intro st st' h c hc
      simp [List.foldlM, pure, Except.pure] at h
      rw [← h]
      exact hc
  | cons p ps ih =>
      intro st st' h c hc
      rw [List.foldlM_cons] at h
      cases hstep : pairStep g iu st p with
      | error e =>
          rw [hstep] at h
          simp [Bind.bind, Except.bind] at h
      | ok st1 =>
          rw [hstep] at h
          simp only [Bind.bind, Except.bind] at h
          exact ih st1 st' h c (pairStep_conf_mono g iu st p st1 hstep c hc)

theorem pairwiseGroupStep_pres (g : Graph) (licExists : String → Bool) (iu : Bool)
    (st : DualLicense × List Conflict × List (String × String)) (grp : DualGroup)
    (st' : DualLicense × List Conflict × List (String × String))
    (h : pairwiseGroupStep g licExists iu st grp = Except.ok st') (q : DualGroup) :
    (q ∉ st.1 → q ∉ st'.1) ∧
    (∀ c, conflictsHas st.2.1 c = true → conflictsHas st'.2.1 c = true) := by
  unfold pairwiseGroupStep at h
  by_cases hc : st.1.contains grp
  · have hcn : (!st.1.contains grp) = false := by simp only [hc, Bool.not_true]
    rw [hcn] at h
    simp only [Bool.false_eq_true, if_false] at h
    cases hfold : List.foldlM (pairStep g iu) (false, st.2.1, st.2.2)
        (combos (grp.filter (fun x => licExists x.unit_spdx || !iu))) with
    | error e =>
        rw [hfold] at h
        simp at h
    | ok r =>
        rw [hfold] at h
        obtain ⟨flag, conf, log⟩ := r
        dsimp only at h
        have hmono := pairsFoldM_conf_mono g iu _ _ _ hfold
        by_cases hflag : flag = true
        · rw [if_pos hflag] at h
          injection h with h
          rw [← h]
          constructor
          · intro hq hmem
            exact hq (List.mem_of_mem_filter hmem)
          · exact fun c hcc => hmono c hcc
        · rw [if_neg hflag] at h
          injection h with h
          rw [← h]
          exact ⟨id, fun c hcc => hmono c hcc⟩
  · have hcf : st.1.contains grp = false := by simpa using hc
    have hcn : (!st.1.contains grp) = true := by simp only [hcf, Bool.not_false]
    rw [hcn] at h
    simp only [if_true] at h
    injection h with h
    rw [← h]
    exact ⟨id, fun _ hcc => hcc⟩

theorem loop2Fold_pres (g : Graph) (licExists : String → Bool) (iu : Bool) :
    ∀ (l : DualLicense) (st st' : DualLicense × List Conflict × List (String × String)),
      List.foldlM (pairwiseGroupStep g licExists iu) st l = Except.ok st' →
      ∀ q, (q ∉ st.1 → q ∉ st'.1) ∧
        (∀ c, conflictsHas st.2.1 c = true → conflictsHas st'.2.1 c = true) := by
  intro l
  induction l with
  | nil =>
      intro st st' h q
      simp [List.foldlM, pure, Except.pure] at h
      rw [← h]
      exact ⟨id, fun _ hc => hc⟩
  | cons grp rest ih =>
      intro st st' h q
      rw [List.foldlM_cons] at h
      cases hstep : pairwiseGroupStep g licExists iu st grp with
      | error e =>
          rw [hstep] at h
          simp [Bind.bind, Except.bind] at h
      | ok st1 =>
          rw [hstep] at h
          simp only [Bind.bind, Except.bind] at h
          obtain ⟨s1, s2⟩ := pairwiseGroupStep_pres g licExists iu st grp st1 hstep q
          obtain ⟨r1, r2⟩ := ih st1 st' h q
          exact ⟨fun hq => r1 (s1 hq), fun c hc => r2 c (s2 c hc)⟩

/-- C4 counterexample: a node whose only group is a single unit whose
spdx_id field is blacklisted but which carries an exception survives
filter_dual_license untouched and produces no conflict, because the code
compares the derived identifier unit_spdx ("CC-BY-NC-4.0-with-E") against
the blacklist, not the raw SPDX id.  The claim as stated — keyed on the
SPDX id of the unit — is therefore false on the code. -/
theorem C4_counterexample :
    (DualUnit.mk "CC-BY-NC-4.0" (some "") ["E"]).spdx_id ∈ ["CC-BY-NC-4.0"] ∧
    filter_dual_license [] (fun _ => true)
        [[DualUnit.mk "CC-BY-NC-4.0" (some "") ["E"]]] ["CC-BY-NC-4.0"] false =
      Except.ok ([[DualUnit.mk "CC-BY-NC-4.0" (some "") ["E"]]], [], []) := by
  exact ⟨by decide, by decide⟩

/-- C4 (amended): restated with the derived identifier unit_spdx in place
of the SPDX id.  Every group containing a unit whose unit_spdx is in the
blacklist is absent from the returned DualLicense, and the singleton
frozenset of that unit_spdx is in the returned conflict set; and a
DualLicense whose only group is a single unit with blacklisted unit_spdx
filters to the empty DualLicense with exactly that singleton conflict and
with no pairwise compatibility query issued (the query log stays empty). -/
theorem C4_amended_blacklist_filtering :
    (∀ (g : Graph) (licExists : String → Bool) (dl : DualLicense) (bl : List String)
        (iu : Bool) (res : DualLicense × List Conflict × List (String × String)),
      filter_dual_license g licExists dl bl iu = Except.ok res →
      ∀ grp ∈ dl, ∀ u ∈ grp, u.unit_spdx ∈ bl →
        grp ∉ res.1 ∧ conflictsHas res.2.1 [CAtom.s u.unit_spdx] = true) ∧
    (∀ (g : Graph) (licExists : String → Bool) (u0 : DualUnit) (bl : List String) (iu : Bool),
      u0.unit_spdx ∈ bl →
      filter_dual_license g licExists [[u0]] bl iu =
        Except.ok ([], [[CAtom.s u0.unit_spdx]], [])) := by
  constructor
  · intro g licExists dl bl iu res hres grp hgrp u hu hbl
    unfold filter_dual_license at hres
    by_cases htr : DualLicense.truthy dl = true
    · rw [htr] at hres
      simp only [Bool.not_true, Bool.false_eq_true, if_false] at hres
      have hblc : bl.contains u.unit_spdx = true := by simpa using hbl
      have hbp := foldBL_spec bl dl (dl, []) grp u hgrp hu hblc (Or.inl hgrp)
      have hpres := loop2Fold_pres g licExists iu dl
        ((blacklistPass dl bl).1, (blacklistPass dl bl).2, []) res hres grp
      unfold blacklistPass at hbp
      exact ⟨(hpres.1 hbp.1), hpres.2 _ hbp.2⟩
    · rw [Bool.not_eq_true] at htr
      rw [htr] at hres
      simp only [Bool.not_false, if_true, Except.ok.injEq] at hres
      have hdl : dl = [] ∨ dl = [[]] := by
        unfold DualLicense.truthy at htr
        rcases Bool.and_eq_false_iff.mp htr with h | h
        · left
          simpa using h
        · right
          simpa using h
      rcases hdl with rfl | rfl
      · simp at hgrp
      · simp at hgrp
        subst hgrp
        simp at hu
  · intro g licExists u0 bl iu hbl
    have hblc : bl.contains u0.unit_spdx = true := by simpa using hbl
    unfold filter_dual_license
    have htr : DualLicense.truthy [[u0]] = true := by
      unfold DualLicense.truthy
      simp
    rw [htr]
    simp only [Bool.not_true, Bool.false_eq_true, if_false]
    have hbp : blacklistPass [[u0]] bl = ([], [[CAtom.s u0.unit_spdx]]) := by
      unfold blacklistPass
      simp only [List.foldl_cons, List.foldl_nil]
      unfold blacklistGroupStep
      simp only [List.contains_cons]
      unfold blacklistUnitStep
      simp only [List.foldl_cons, List.foldl_nil, hblc, if_true]
      simp [conflictsAdd, conflictsHas]
    rw [hbp]
    simp only [List.foldlM_cons, List.foldlM_nil]
    unfold pairwiseGroupStep
    simp [pure, Except.pure, Bind.bind, Except.bind]

/-- C4 witness: the amended theorem applied at a concrete blacklisted
single-license node. -/
theorem C4_witness :
    ([DualUnit.mk "CC-BY-NC-4.0" (some "") []] ∉ ([] : DualLicense) ∧
      conflictsHas [[CAtom.s "CC-BY-NC-4.0"]] [CAtom.s "CC-BY-NC-4.0"] = true) ∧
    filter_dual_license [] (fun _ => true) [[DualUnit.mk "CC-BY-NC-4.0" (some "") []]]
        ["CC-BY-NC-4.0"] false = Except.ok ([], [[CAtom.s "CC-BY-NC-4.0"]], []) := by
  constructor
  · exact C4_amended_blacklist_filtering.1 [] (fun _ => true)
      [[DualUnit.mk "CC-BY-NC-4.0" (some "") []]] ["CC-BY-NC-4.0"] false
      ([], [[CAtom.s "CC-BY-NC-4.0"]], []) (by decide)
      [DualUnit.mk "CC-BY-NC-4.0" (some "") []] (by decide)
      (DualUnit.mk "CC-BY-NC-4.0" (some "") []) (by decide) (by decide)
  · exact C4_amended_blacklist_filtering.2 [] (fun _ => true)
      (DualUnit.mk "CC-BY-NC-4.0" (some "") []) ["CC-BY-NC-4.0"] false (by decide)

/-! ## Pass A effective outbound
(src/lict/parser/propagate.py, BasePropagateParser.get_outbound)

The method consults three checker helpers: is_license_exist (checker.py
lines 36-48) plus is_copyleft and get_relicense, which are called on
self.checker in propagate.py lines 268-279 but have no definition under
src/ (src/lict/checker.py ends at check_compatibility); they are therefore
oracle parameters here.  get_relicense receives Scope({condition: set()})
in the source; the opaque oracle takes the raw condition.  Likewise the
configuration accessors: license_isolations is a Config field
(structure.py line 44) while permissive_spreads has no definition under
src/ — per the spec (section 3, Config) it is the
license_spread.spread_conditions list, modelled as a plain field. -/

structure CheckerOracle where
  is_license_exist : String → Bool
  is_copyleft : String → Bool
  get_relicense : String → Option String → Option String

structure PropConfig where
  license_isolations : List String
  permissive_spreads : List String

/-- Python membership of an optional string in a list of strings: None is
never a member. -/
def optMem (o : Option String) (l : List String) : Bool :=
  match o with
  | some s => l.contains s
  | none => false

/-- Python set equality of groups (frozensets compare as sets). -/
def groupSetEq (a b : DualGroup) : Bool := a.all b.contains && b.all a.contains

/-- Python set.add of a frozenset group into the result DualLicense. -/
def dlInsertSet (dl : DualLicense) (g : DualGroup) : DualLicense :=
  if dl.any (fun h => groupSetEq h g) then dl else dl ++ [g]

/-- The unit loop body of BasePropagateParser.get_outbound (propagate.py
lines 267-284): unknown licenses, isolation conditions and licenses whose
relicense target is public-domain are dropped; copyleft licenses are
retained with the current condition; other licenses are retained with the
current condition exactly when that condition is in permissive_spreads or
DEFAULT is in that list. -/
def outboundUnitStep (checker : CheckerOracle) (config : PropConfig)
    (condition : Option String) (default_spread : Bool) (ng : DualGroup) (lic : DualUnit) :
    DualGroup :=
  if !(checker.is_license_exist lic.unit_spdx) then ng
  else if optMem lic.condition config.license_isolations then ng
  else if checker.get_relicense lic.unit_spdx lic.condition == some "public-domain" then ng
  else if checker.is_copyleft lic.unit_spdx then
    gInsert ng (DualUnit.mk lic.spdx_id condition lic.exceptions)
  else if optMem condition config.permissive_spreads || default_spread then
    gInsert ng (DualUnit.mk lic.spdx_id condition lic.exceptions)
  else ng

/-- The group loop body of BasePropagateParser.get_outbound (propagate.py
lines 265-287): only non-empty processed groups are added. -/
def outboundGroupStep (checker : CheckerOracle) (config : PropConfig)
    (condition : Option String) (default_spread : Bool) (new : DualLicense)
    (group : DualGroup) : DualLicense :=
  if !(group.foldl (outboundUnitStep checker config condition default_spread) []).isEmpty then
    dlInsertSet new (group.foldl (outboundUnitStep checker config condition default_spread) [])
  else new

/-- BasePropagateParser.get_outbound (propagate.py lines 242-291). -/
def get_outbound (checker : CheckerOracle) (config : PropConfig) (dual_lic : DualLicense)
    (condition : Option String) : DualLicense :=
  if !dual_lic.truthy then dual_lic
  else
    dual_lic.foldl
      (outboundGroupStep checker config condition (config.permissive_spreads.contains "DEFAULT"))
      []

/-- C3 counterexample: a copyleft license known to the graph, not isolated
and not relicensed, annotated with the current condition STATIC_LINKING, is
retained by Pass A with its condition set to the CURRENT condition, not
cleared to None as the claim states. -/
theorem C3_counterexample :
    get_outbound
        (CheckerOracle.mk (fun _ => true) (fun _ => true) (fun _ _ => none))
        (PropConfig.mk [] [])
        [[DualUnit.mk "GPL-2.0-only" (some "STATIC_LINKING") []]]
        (some "STATIC_LINKING") =
      [[DualUnit.mk "GPL-2.0-only" (some "STATIC_LINKING") []]] ∧
    ∀ grp ∈ get_outbound
        (CheckerOracle.mk (fun _ => true) (fun _ => true) (fun _ _ => none))
        (PropConfig.mk [] [])
        [[DualUnit.mk "GPL-2.0-only" (some "STATIC_LINKING") []]]
        (some "STATIC_LINKING"),
      DualUnit.mk "GPL-2.0-only" none [] ∉ grp := by
  exact ⟨by decide, by decide⟩

theorem dlInsertSet_mem (dl : DualLicense) (g G : DualGroup) (h : G ∈ dlInsertSet dl g) :
    G ∈ dl ∨ G = g := by
  unfold dlInsertSet at h
  split at h
  · exact Or.inl h
  · rcases List.mem_append.mp h with h | h
    · exact Or.inl h
    · simp at h
      exact Or.inr h

theorem outboundFold_mem (checker : CheckerOracle) (config : PropConfig)
    (condition : Option String) (ds : Bool) :
    ∀ (l : DualLicense) (acc : DualLicense) (G : DualGroup),
      G ∈ l.foldl (outboundGroupStep checker config condition ds) acc →
      G ∈ acc ∨ ∃ g ∈ l,
        G = g.foldl (outboundUnitStep checker config condition ds) [] ∧ G ≠ [] := by
  intro l
  induction l with
  | nil =>
      intro acc G h
      exact Or.inl h
  | cons grp rest ih =>
      intro acc G h
      simp only [List.foldl_cons] at h
      rcases ih (outboundGroupStep checker config condition ds acc grp) G h with h1 | ⟨g, hg, he⟩
      · unfold outboundGroupStep at h1
        by_cases hne : (grp.foldl (outboundUnitStep checker config condition ds) []).isEmpty
        · rw [hne] at h1
          simp only [Bool.not_true, Bool.false_eq_true, if_false] at h1
          exact Or.inl h1
        · have hne' : (!(grp.foldl (outboundUnitStep checker config condition ds) []).isEmpty)
              = true := by
            simp only [Bool.not_eq_true'] at hne
            simp [hne]
          rw [hne'] at h1
          simp only [if_true] at h1
          rcases dlInsertSet_mem acc _ G h1 with h2 | h2
          · exact Or.inl h2
          · refine Or.inr ⟨grp, List.mem_cons_self grp rest, h2, ?_⟩
            rw [h2]
            intro h0
            rw [h0] at hne
            simp at hne
      · exact Or.inr ⟨g, List.mem_cons_of_mem grp hg, he⟩

/-- C3 (amended): in Pass A the effective outbound is computed per unit as
follows — units whose license is unknown to the checker are dropped; units
whose condition is a license-isolation condition are dropped; units whose
relicense target at the current condition is public-domain are dropped; a
copyleft unit is retained with its condition SET TO THE CURRENT CONDITION
(not cleared to None); a non-copyleft unit is retained with the current
condition exactly when that condition is in permissive_spreads or DEFAULT
is in that list, and dropped otherwise; and every group of the result of
get_outbound on a truthy DualLicense arises as the per-unit processing of
one of the input groups and is non-empty. -/
theorem C3_amended_effective_outbound :
    (∀ (checker : CheckerOracle) (config : PropConfig) (cond : Option String) (ds : Bool)
        (ng : DualGroup) (lic : DualUnit),
      (checker.is_license_exist lic.unit_spdx = false →
        outboundUnitStep checker config cond ds ng lic = ng) ∧
      (checker.is_license_exist lic.unit_spdx = true →
        optMem lic.condition config.license_isolations = true →
        outboundUnitStep checker config cond ds ng lic = ng) ∧
      (checker.is_license_exist lic.unit_spdx = true →
        optMem lic.condition config.license_isolations = false →
        checker.get_relicense lic.unit_spdx lic.condition = some "public-domain" →
        outboundUnitStep checker config cond ds ng lic = ng) ∧
      (checker.is_license_exist lic.unit_spdx = true →
        optMem lic.condition config.license_isolations = false →
        checker.get_relicense lic.unit_spdx lic.condition ≠ some "public-domain" →
        checker.is_copyleft lic.unit_spdx = true →
        outboundUnitStep checker config cond ds ng lic =
          gInsert ng (DualUnit.mk lic.spdx_id cond lic.exceptions)) ∧
      (checker.is_license_exist lic.unit_spdx = true →
        optMem lic.condition config.license_isolations = false →
        checker.get_relicense lic.unit_spdx lic.condition ≠ some "public-domain" →
        checker.is_copyleft lic.unit_spdx = false →
        outboundUnitStep checker config cond ds ng lic =
          (if (optMem cond config.permissive_spreads || ds) = true then
            gInsert ng (DualUnit.mk lic.spdx_id cond lic.exceptions)
          else ng))) ∧
    (∀ (checker : CheckerOracle) (config : PropConfig) (dl : DualLicense) (cond : Option String),
      dl.truthy = true →
      ∀ G ∈ get_outbound checker config dl cond,
        ∃ g ∈ dl, G = g.foldl (outboundUnitStep checker config cond
          (config.permissive_spreads.contains "DEFAULT")) [] ∧ G ≠ []) := by
  constructor
  · intro checker config cond ds ng lic
    refine ⟨?_, ?_, ?_, ?_, ?_⟩
    · intro h1
      simp [outboundUnitStep, h1]
    · intro h1 h2
      simp [outboundUnitStep, h1, h2]
    · intro h1 h2 h3
      simp [outboundUnitStep, h1, h2, h3]
    · intro h1 h2 h3 h4
      simp [outboundUnitStep, h1, h2, h3, h4]
    · intro h1 h2 h3 h4
      simp [outboundUnitStep, h1, h2, h3, h4]
  · intro checker config dl cond htr G hG
    unfold get_outbound at hG
    rw [htr] at hG
    simp only [Bool.not_true, Bool.false_eq_true, if_false] at hG
    rcases outboundFold_mem checker config cond (config.permissive_spreads.contains "DEFAULT")
        dl [] G hG with h | h
    · simp at h
    · exact h

/-- C3 witness: the amended theorem applied to a concrete copyleft unit
under the STATIC_LINKING condition and to the counterexample DualLicense. -/
theorem C3_witness :
    outboundUnitStep (CheckerOracle.mk (fun _ => true) (fun _ => true) (fun _ _ => none))
        (PropConfig.mk [] []) (some "STATIC_LINKING") false []
        (DualUnit.mk "GPL-2.0-only" (some "STATIC_LINKING") []) =
      gInsert [] (DualUnit.mk "GPL-2.0-only" (some "STATIC_LINKING") []) ∧
    ∃ g ∈ [[DualUnit.mk "GPL-2.0-only" (some "STATIC_LINKING") []]],
      [DualUnit.mk "GPL-2.0-only" (some "STATIC_LINKING") []] =
        g.foldl (outboundUnitStep
          (CheckerOracle.mk (fun _ => true) (fun _ => true) (fun _ _ => none))
          (PropConfig.mk [] []) (some "STATIC_LINKING") false) [] ∧
      [DualUnit.mk "GPL-2.0-only" (some "STATIC_LINKING") []] ≠ [] := by
  constructor
  · exact ((C3_amended_effective_outbound.1
      (CheckerOracle.mk (fun _ => true) (fun _ => true) (fun _ _ => none))
      (PropConfig.mk [] []) (some "STATIC_LINKING") false []
      (DualUnit.mk "GPL-2.0-only" (some "STATIC_LINKING") [])).2.2.2.1
      (by decide) (by decide) (by decide) (by decide))
  · exact (C3_amended_effective_outbound.2
      (CheckerOracle.mk (fun _ => true) (fun _ => true) (fun _ _ => none))
      (PropConfig.mk [] []) [[DualUnit.mk "GPL-2.0-only" (some "STATIC_LINKING") []]]
      (some "STATIC_LINKING") (by decide)
      [DualUnit.mk "GPL-2.0-only" (some "STATIC_LINKING") []] (by decide))

/-! ## SPDX expression parser (src/lict/utils/structure.py, SPDXParser)

The parser works on the token list produced by SPDXParser.tokenize; the
embedding consumes the list from the front, which matches the source index
self.current advancing over a fixed list.  An element of a parsed
expression tuple is a DualUnit, an operator string, or a nested tuple.
Recursion is bounded by a fuel argument consumed at every recursive call;
the out-of-fuel result is unreachable for fuel larger than the token
count plus one and exists only to make the recursion structural. -/

inductive PElem where
  | unit (u : DualUnit)
  | op (s : String)
  | sub (es : List PElem)

mutual

/-- SPDXParser.parse_term (structure.py lines 512-528): an opening
parenthesis parses a nested expression and requires a closing parenthesis;
a stray closing parenthesis fails; any other token becomes a DualUnit with
the constructor defaults (condition the empty string, no exceptions). -/
def parseTermF : Nat → List String → Except String (PElem × List String)
  | 0, _ => Except.error "out of fuel"
  | _ + 1, [] => Except.error "Unexpected end of expression"
  | f + 1, t :: rest =>
    if t = "(" then
      match parseExpressionF f rest with
      | Except.ok (e, rest') =>
          match rest' with
          | ")" :: rest2 => Except.ok (PElem.sub e, rest2)
          | _ => Except.error "Missing closing parenthesis"
      | Except.error e => Except.error e
    else if t = ")" then Except.error "Unexpected closing parenthesis"
    else Except.ok (PElem.unit (DualUnit.mk t (some "") []), rest)

/-- SPDXParser.parse_expression (structure.py lines 491-510): one leading
term followed by the operator loop. -/
def parseExpressionF : Nat → List String → Except String (List PElem × List String)
  | 0, _ => Except.error "out of fuel"
  | f + 1, ts =>
    match parseTermF f ts with
    | Except.error e => Except.error e
    | Except.ok (t, rest) => parseLoopF f [t] rest

/-- The while loop of parse_expression (structure.py lines 493-507): AND
and OR consume a further term; WITH appends its right operand to the
exceptions list of the last parsed term when that term is a bare
identifier, and raises SyntaxError when the last term is a parenthesised
subexpression (isinstance tuple check, line 500).  The op and empty cases
of the last term are unreachable (the list always ends with a term) and
mirror the TypeError and IndexError Python would raise. -/
def parseLoopF : Nat → List PElem → List String → Except String (List PElem × List String)
  | 0, _, _ => Except.error "out of fuel"
  | _ + 1, terms, [] => Except.ok (terms, [])
  | f + 1, terms, tok :: rest =>
    if tok = "AND" ∨ tok = "OR" ∨ tok = "WITH" then
      if tok = "WITH" then
        match rest with
        | [] => Except.error "Unexpected end of expression"
        | x :: rest2 =>
          match terms.getLast? with
          | some (PElem.sub _) =>
              Except.error "WITH operator must be followed by single spdx not compound expression"
          | some (PElem.unit u) =>
              parseLoopF f (terms.dropLast ++
                [PElem.unit (DualUnit.mk u.spdx_id u.condition (u.exceptions ++ [x]))]) rest2
          | some (PElem.op _) => Except.error "TypeError"
          | none => Except.error "IndexError"
      else
        match parseTermF f rest with
        | Except.error e => Except.error e
        | Except.ok (t, rest2) => parseLoopF f (terms ++ [PElem.op tok, t]) rest2
    else Except.ok (terms, tok :: rest)

end

/-- SPDXParser.parse (structure.py lines 484-489): parse one expression and
fail when tokens remain. -/
def SPDXParse (ts : List String) : Except String (List PElem) :=
  match parseExpressionF (2 * ts.length + 2) ts with
  | Except.error e => Except.error e
  | Except.ok (r, []) => Except.ok r
  | Except.ok (_, _ :: _) => Except.error "Unexpected token at the end of expression"

example : SPDXParse ["MIT", "WITH", "Classpath-exception-2.0"] =
    Except.ok [PElem.unit (DualUnit.mk "MIT" (some "") ["Classpath-exception-2.0"])] := rfl

example : SPDXParse ["(", "MIT", "OR", "GPL-2.0-only", ")", "WITH", "E"] =
    Except.error "WITH operator must be followed by single spdx not compound expression" := rfl

theorem parseTermF_zero_not_sub (ts : List String) (e : List PElem) (rest : List String) :
    parseTermF 0 ts ≠ Except.ok (PElem.sub e, rest) := by
  simp [parseTermF]

theorem parseTermF_one_not_sub (ts : List String) (e : List PElem) (rest : List String) :
    parseTermF 1 ts ≠ Except.ok (PElem.sub e, rest) := by
  cases ts with
  | nil => simp [parseTermF]
  | cons t r =>
      unfold parseTermF
      by_cases h1 : t = "("
      · simp [h1, parseExpressionF]
      · by_cases h2 : t = ")"
        · simp [h1, h2]
        · simp [h1, h2]

/-- C7: at any point of any parse where the next token is WITH — the
operator loop of parse_expression with the current terms tuple and the
remaining tokens — a last term that is a parenthesised subexpression
(a tuple) raises the SyntaxError of structure.py line 501, whatever came
before and whatever follows; a last term that is a bare identifier does
not fail there: the loop continues with the right operand appended to that
term's exceptions list.  Further conjuncts propagate a loop error
through parse_expression, through a parenthesised parse_term, and through
parse to the caller, so the SyntaxError surfaces at every nesting depth;
a WITH that ends the token list raises the end-of-expression SyntaxError
whatever the last term is. -/
theorem C7_with_operator :
    (∀ (f : Nat) (terms : List PElem) (y : String) (rest : List String) (e : List PElem),
      terms.getLast? = some (PElem.sub e) →
      parseLoopF (f + 1) terms ("WITH" :: y :: rest) =
        Except.error "WITH operator must be followed by single spdx not compound expression") ∧
    (∀ (f : Nat) (terms : List PElem) (y : String) (rest : List String) (u : DualUnit),
      terms.getLast? = some (PElem.unit u) →
      parseLoopF (f + 1) terms ("WITH" :: y :: rest) =
        parseLoopF f (terms.dropLast ++
          [PElem.unit (DualUnit.mk u.spdx_id u.condition (u.exceptions ++ [y]))]) rest) ∧
    (∀ (f : Nat) (ts : List String) (t : PElem) (rest : List String) (msg : String),
      parseTermF f ts = Except.ok (t, rest) → parseLoopF f [t] rest = Except.error msg →
      parseExpressionF (f + 1) ts = Except.error msg) ∧
    (∀ (f : Nat) (ts : List String) (msg : String),
      parseExpressionF f ts = Except.error msg →
      parseTermF (f + 1) ("(" :: ts) = Except.error msg) ∧
    (∀ (ts : List String) (msg : String),
      parseExpressionF (2 * ts.length + 2) ts = Except.error msg →
      SPDXParse ts = Except.error msg) ∧
    (∀ (f : Nat) (terms : List PElem),
      parseLoopF (f + 1) terms ["WITH"] = Except.error "Unexpected end of expression") := by
  refine ⟨?_, ?_, ?_, ?_, ?_, ?_⟩
  · intro f terms y rest e h
    simp [parseLoopF, h]
  · intro f terms y rest u h
    simp [parseLoopF, h]
  · intro f ts t rest msg h1 h2
    unfold parseExpressionF
    rw [h1]
    exact h2
  · intro f ts msg h
    unfold parseTermF
    rw [if_pos rfl, h]
  · intro ts msg h
    unfold SPDXParse
    rw [h]
  · intro f terms
    simp [parseLoopF]

/-- C7 witness: the theorem applied mid-expression — in A AND (B) WITH C
the loop reaches WITH with the subexpression (B) as last term and fails;
in MIT WITH E AND X the loop reaches WITH with the bare MIT as last term,
appends E and continues — together with the end-to-end parses of both
token lists. -/
theorem C7_witness :
    parseLoopF 9 [PElem.unit (DualUnit.mk "A" (some "") []), PElem.op "AND",
        PElem.sub [PElem.unit (DualUnit.mk "B" (some "") [])]] ["WITH", "C"] =
      Except.error "WITH operator must be followed by single spdx not compound expression" ∧
    parseLoopF 9 [PElem.unit (DualUnit.mk "MIT" (some "") [])] ["WITH", "E", "AND", "X"] =
      parseLoopF 8 [PElem.unit (DualUnit.mk "MIT" (some "") ["E"])] ["AND", "X"] ∧
    SPDXParse ["A", "AND", "(", "B", ")", "WITH", "C"] =
      Except.error "WITH operator must be followed by single spdx not compound expression" ∧
    SPDXParse ["MIT", "WITH", "E", "AND", "X"] =
      Except.ok [PElem.unit (DualUnit.mk "MIT" (some "") ["E"]), PElem.op "AND",
        PElem.unit (DualUnit.mk "X" (some "") [])] :=
  ⟨C7_with_operator.1 8
      [PElem.unit (DualUnit.mk "A" (some "") []), PElem.op "AND",
        PElem.sub [PElem.unit (DualUnit.mk "B" (some "") [])]] "C" []
      [PElem.unit (DualUnit.mk "B" (some "") [])] rfl,
    C7_with_operator.2.1 8 [PElem.unit (DualUnit.mk "MIT" (some "") [])] "E"
      ["AND", "X"] (DualUnit.mk "MIT" (some "") []) rfl,
    rfl, rfl⟩

/-! ## Version helpers (src/lict/utils/scaffold.py) and the or-later
callback (src/lict/infer.py, OrLaterRelicenseRule) -/

/-- One attempt of the regex (\d+\.\d+(\.\d+)?) at the current position:
a maximal digit run, a dot, a second maximal digit run, and optionally a
dot with a third digit run (scaffold.py lines 192-206). -/
def matchVersionAt (cs : List Char) : Option (List Char) :=
  let d1 := cs.takeWhile Char.isDigit
  if d1.isEmpty then none
  else
    match cs.drop d1.length with
    | '.' :: r2 =>
      let d2 := r2.takeWhile Char.isDigit
      if d2.isEmpty then none
      else
        match r2.drop d2.length with
        | '.' :: r3 =>
          let d3 := r3.takeWhile Char.isDigit
          if d3.isEmpty then some (d1 ++ '.' :: d2)
          else some (d1 ++ '.' :: d2 ++ '.' :: d3)
        | _ => some (d1 ++ '.' :: d2)
    | _ => none

/-- re.search scans positions left to right. -/
def searchVersionAux : List Char → Option (List Char)
  | [] => none
  | c :: rest =>
    match matchVersionAt (c :: rest) with
    | some m => some m
    | none => searchVersionAux rest

/-- extract_version (scaffold.py lines 192-206). -/
def extract_version (s : String) : Option String :=
  (searchVersionAux s.toList).map (fun l => String.mk l)

/-- str.split with a one-character separator, Python semantics: the empty
string yields one empty segment. -/
def splitOnChar (sep : Char) : List Char → List (List Char)
  | [] => [[]]
  | c :: rest =>
    if c = sep then [] :: splitOnChar sep rest
    else
      match splitOnChar sep rest with
      | [] => [[c]]
      | seg :: segs => (c :: seg) :: segs

/-- A version segment consisting solely of zero digits (the regex group
\.0+ of scaffold.py line 219). -/
def isAllZeros (cs : List Char) : Bool := !cs.isEmpty && cs.all (fun c => c = '0')

/-- Drop the trailing run of all-zero segments of the reversed segment
list, never dropping the final (i.e. first) segment: the regex (\.0+)*$
always leaves the leading segment because each group starts with a dot. -/
def dropZeroSegs : List (List Char) → List (List Char)
  | [] => []
  | s :: t => if isAllZeros s && !t.isEmpty then dropZeroSegs t else s :: t

/-- The value of a digit run, as int() computes it. -/
def digitsToNat (cs : List Char) : Nat :=
  cs.foldl (fun n c => n * 10 + (c.toNat - Char.toNat '0')) 0

/-- int() on a version segment: a non-empty digit run parses, anything else
(notably the empty string) raises ValueError in the source. -/
def parseDigits (cs : List Char) : Option Nat :=
  if !cs.isEmpty && cs.all Char.isDigit then some (digitsToNat cs) else none

/-- normalize_version (scaffold.py lines 209-219): strip trailing .0 groups
and parse the remaining dot-separated segments as integers. -/
def normalize_version (v : String) : Option (List Nat) :=
  ((dropZeroSegs (splitOnChar '.' v.toList).reverse).reverse).mapM parseDigits

/-- OrLaterRelicenseRule.get_normalized_version (infer.py lines 313-314):
extract_version, with the empty string when no version is present. -/
def getNormalizedVersion (s : String) : Option (List Nat) :=
  normalize_version ((extract_version s).getD "")

example : getNormalizedVersion "GPL-2.0-or-later" = some [2] := by decide

example : getNormalizedVersion "GPL-3.0-only" = some [3] := by decide

example : normalize_version "2.0.1" = some [2, 0, 1] := by decide

example : normalize_version "2.10" = some [2, 10] := by decide

example : getNormalizedVersion "MIT" = none := by decide

/-- Python list[int] comparison, greater-than (lexicographic with shorter
lists smaller). -/
def listGtN : List Nat → List Nat → Bool
  | [], [] => false
  | _ :: _, [] => true
  | [], _ :: _ => false
  | a :: as, b :: bs => if a > b then true else if a < b then false else listGtN as bs

/-- find_all_versions (scaffold.py lines 222-237): licenses sharing the
first dash-separated component with the given id (no filter function is
passed by the or-later rule). -/
def find_all_versions (spdx : String) (licenses : List String) : List String :=
  licenses.filter (fun lic =>
    ((splitOnChar '-' lic.toList).headD []) == ((splitOnChar '-' spdx.toList).headD []))

/-- Contiguous-sublist test on character lists. -/
def isInfixOfL (needle : List Char) : List Char → Bool
  | [] => needle.isEmpty
  | c :: t => needle.isPrefixOf (c :: t) || isInfixOfL needle t

/-- Python substring test for "or-later". -/
def orLaterIn (s : String) : Bool := isInfixOfL "or-later".toList s.toList

/-- has_edge with the UNCONDITIONAL_COMPATIBLE filter (infer.py lines
144-151). -/
def hasUncond (g : Graph) (a b : String) : Bool :=
  !(queryEdgeCompat g a b CompatibleType.UNCONDITIONAL_COMPATIBLE).isEmpty

/-- rm_existed_edges (infer.py lines 316-333). -/
def rmExistedEdges (g : Graph) (a b : String) (c : CompatibleType) (bi : Bool) : Graph :=
  let g1 := rmEdgesCompat g a b c
  if bi then rmEdgesCompat g1 b a c else g1

/-- Both rm_existed_edges calls of the unconditional-upgrade branch
(infer.py lines 367-372): bidirectional removal of INCOMPATIBLE then of
CONDITIONAL_COMPATIBLE edges between A and B. -/
def rmBoth (g : Graph) (a b : String) : Graph :=
  rmExistedEdges (rmExistedEdges g a b CompatibleType.INCOMPATIBLE true)
    a b CompatibleType.CONDITIONAL_COMPATIBLE true

/-- The conditional edge copied onto the A/B pair by the or-later callback
(infer.py lines 382-394). -/
def orLaterCondCopy (a b tgt x y : String) (sc : Scope) : Edge :=
  Edge.mk (if x = tgt then a else b) (if y = tgt then a else b)
    CompatibleType.CONDITIONAL_COMPATIBLE (some sc) "OrLaterRelicenseRule" (some tgt)

/-- The inner direction loop body of the or-later callback (infer.py lines
363-394) for the pair (x, y) drawn from ((tgt, B), (B, tgt)): an existing
unconditional x→y edge upgrades the A/B pair with path tgt; otherwise the
CONDITIONAL edges found by the (tgt, y) query are copied onto the pair
(note the source queries tgt→y, not x→y, so the reverse iteration queries
the self pair tgt→tgt).  A conditional edge without a stored scope raises
KeyError in the source. -/
def orLaterDirection (g : Graph) (a b tgt x y : String) : Except String Graph :=
  if !(queryEdgeCompat g x y CompatibleType.UNCONDITIONAL_COMPATIBLE).isEmpty then
    Except.ok (addEdge (rmBoth g a b)
      (Edge.mk (if x = tgt then a else b) (if y = tgt then a else b)
        CompatibleType.UNCONDITIONAL_COMPATIBLE none "OrLaterRelicenseRule" (some tgt)))
  else
    (queryEdgeCompat g tgt y CompatibleType.CONDITIONAL_COMPATIBLE).foldlM
      (fun gr e0 =>
        match e0.scope with
        | none => Except.error "KeyError: scope"
        | some sc => Except.ok (addEdge gr (orLaterCondCopy a b tgt x y sc)))
      g

/-- The per-target body of the or-later callback (infer.py lines 352-394):
a target equal to B upgrades both directions unconditionally; any other
target runs the direction loop for (tgt, B) and then (B, tgt). -/
def orLaterTarget (a b : String) (g : Graph) (tgt : String) : Except String Graph :=
  if tgt = b then
    Except.ok (addEdge (addEdge (rmExistedEdges g a b CompatibleType.INCOMPATIBLE true)
      (Edge.mk a b CompatibleType.UNCONDITIONAL_COMPATIBLE none "OrLaterRelicenseRule" none))
      (Edge.mk b a CompatibleType.UNCONDITIONAL_COMPATIBLE none "OrLaterRelicenseRule" none))
  else
    match orLaterDirection g a b tgt tgt b with
    | Except.error e => Except.error e
    | Except.ok g1 => orLaterDirection g1 a b tgt b tgt

/-- The deferred target list of the or-later callback (infer.py lines
338-342, 351): licenses sharing the prefix of A whose normalised version is
strictly greater than the current one and which carry no or-later
substring; a candidate without a parsable version raises ValueError when
the lazy filter is forced. -/
def orLaterTargets (licenses : List String) (a : String) (current : List Nat) :
    Option (List String) :=
  ((find_all_versions a licenses).mapM fun x =>
      (getNormalizedVersion x).map (fun vx => (x, vx))).map
    (fun pairs => (pairs.filter (fun p => listGtN p.2 current && !orLaterIn p.1)).map (·.1))

/-- OrLaterRelicenseRule.callback (infer.py lines 335-394). -/
def orLaterCallback (licenses : List String) (g : Graph) (a b : String) : Except String Graph :=
  match getNormalizedVersion a with
  | none => Except.error "ValueError: invalid version"
  | some current =>
      if hasUncond g a b then Except.ok g
      else
        match orLaterTargets licenses a current with
        | none => Except.error "ValueError: invalid version"
        | some targets => targets.foldlM (fun gr tgt => orLaterTarget a b gr tgt) g

/-- C5 counterexample: with GPL-3.0-only→MIT UNCONDITIONAL in the graph and
A = GPL-2.0-or-later, B = MIT, the callback sets only A→B; the claimed
B→A unconditional edge is never recorded because the reverse iteration
queries B→target (absent) and falls back to a target→target self query. -/
theorem C5_counterexample :
    orLaterCallback ["GPL-2.0-or-later", "GPL-3.0-only", "MIT"]
        [Edge.mk "GPL-3.0-only" "MIT" CompatibleType.UNCONDITIONAL_COMPATIBLE none "" none]
        "GPL-2.0-or-later" "MIT" =
      Except.ok
        [Edge.mk "GPL-3.0-only" "MIT" CompatibleType.UNCONDITIONAL_COMPATIBLE none "" none,
          Edge.mk "GPL-2.0-or-later" "MIT" CompatibleType.UNCONDITIONAL_COMPATIBLE none
            "OrLaterRelicenseRule" (some "GPL-3.0-only")] ∧
    queryEdgeCompat
        [Edge.mk "GPL-3.0-only" "MIT" CompatibleType.UNCONDITIONAL_COMPATIBLE none "" none,
          Edge.mk "GPL-2.0-or-later" "MIT" CompatibleType.UNCONDITIONAL_COMPATIBLE none
            "OrLaterRelicenseRule" (some "GPL-3.0-only")]
        "MIT" "GPL-2.0-or-later" CompatibleType.UNCONDITIONAL_COMPATIBLE = [] := by
  exact ⟨by decide, by decide⟩

/-! Query and membership stability lemmas for the graph operations. -/

lemma queryEdgeCompat_append (g1 g2 : Graph) (x y : String) (c : CompatibleType) :
    queryEdgeCompat (g1 ++ g2) x y c = queryEdgeCompat g1 x y c ++ queryEdgeCompat g2 x y c := by
  simp [queryEdgeCompat, List.filter_append]

lemma queryEdgeCompat_addEdge_ne (g : Graph) (e : Edge) (x y : String) (c : CompatibleType)
    (h : ¬(e.u = x ∧ e.v = y)) :
    queryEdgeCompat (addEdge g e) x y c = queryEdgeCompat g x y c := by
  show queryEdgeCompat (g ++ [e]) x y c = _
  rw [queryEdgeCompat_append]
  have hnil : queryEdgeCompat [e] x y c = [] := by
    by_cases h1 : e.u = x
    · have h2 : e.v ≠ y := fun h2 => h ⟨h1, h2⟩
      simp [queryEdgeCompat, h2]
    · simp [queryEdgeCompat, h1]
  rw [hnil, List.append_nil]

lemma queryEdgeCompat_rm_compat_ne (g : Graph) (a b x y : String) (c cr : CompatibleType)
    (h : c ≠ cr) :
    queryEdgeCompat (rmEdgesCompat g a b cr) x y c = queryEdgeCompat g x y c := by
  unfold rmEdgesCompat queryEdgeCompat
  rw [List.filter_filter]
  apply List.filter_congr
  intro e _
  simp
  intro _ _ h3
  right
  rw [h3]
  exact h

lemma queryEdgeCompat_rm_pair_ne (g : Graph) (a b x y : String) (c cr : CompatibleType)
    (h : ¬(x = a ∧ y = b)) :
    queryEdgeCompat (rmEdgesCompat g a b cr) x y c = queryEdgeCompat g x y c := by
  unfold rmEdgesCompat queryEdgeCompat
  rw [List.filter_filter]
  apply List.filter_congr
  intro e _
  simp
  intro h1 h2 _
  left
  rcases not_and_or.mp h with hxa | hyb
  · left
    rw [h1]
    exact hxa
  · right
    rw [h2]
    exact hyb

lemma mem_rmEdgesCompat (g : Graph) (a b : String) (cr : CompatibleType) (e : Edge)
    (he : e ∈ g) (h : e.compatibility ≠ cr) : e ∈ rmEdgesCompat g a b cr := by
  refine List.mem_filter.mpr ⟨he, ?_⟩
  have hcc : (e.compatibility == cr) = false := beq_eq_false_iff_ne.mpr h
  simp [hcc]

lemma queryEdgeCompat_rmBoth_uncond (g : Graph) (a b x y : String) :
    queryEdgeCompat (rmBoth g a b) x y CompatibleType.UNCONDITIONAL_COMPATIBLE =
      queryEdgeCompat g x y CompatibleType.UNCONDITIONAL_COMPATIBLE := by
  show queryEdgeCompat
      (rmEdgesCompat (rmEdgesCompat (rmEdgesCompat (rmEdgesCompat g
        a b CompatibleType.INCOMPATIBLE) b a CompatibleType.INCOMPATIBLE)
        a b CompatibleType.CONDITIONAL_COMPATIBLE) b a CompatibleType.CONDITIONAL_COMPATIBLE)
      x y CompatibleType.UNCONDITIONAL_COMPATIBLE = _
  rw [queryEdgeCompat_rm_compat_ne _ b a x y _ _ (by intro hh; exact CompatibleType.noConfusion hh)]
  rw [queryEdgeCompat_rm_compat_ne _ a b x y _ _ (by intro hh; exact CompatibleType.noConfusion hh)]
  rw [queryEdgeCompat_rm_compat_ne _ b a x y _ _ (by intro hh; exact CompatibleType.noConfusion hh)]
  rw [queryEdgeCompat_rm_compat_ne _ a b x y _ _ (by intro hh; exact CompatibleType.noConfusion hh)]

lemma queryEdgeCompat_rmBoth_pair_ne (g : Graph) (a b x y : String) (c : CompatibleType)
    (h1 : ¬(x = a ∧ y = b)) (h2 : ¬(x = b ∧ y = a)) :
    queryEdgeCompat (rmBoth g a b) x y c = queryEdgeCompat g x y c := by
  show queryEdgeCompat
      (rmEdgesCompat (rmEdgesCompat (rmEdgesCompat (rmEdgesCompat g
        a b CompatibleType.INCOMPATIBLE) b a CompatibleType.INCOMPATIBLE)
        a b CompatibleType.CONDITIONAL_COMPATIBLE) b a CompatibleType.CONDITIONAL_COMPATIBLE)
      x y c = _
  rw [queryEdgeCompat_rm_pair_ne _ b a x y _ _ h2]
  rw [queryEdgeCompat_rm_pair_ne _ a b x y _ _ h1]
  rw [queryEdgeCompat_rm_pair_ne _ b a x y _ _ h2]
  rw [queryEdgeCompat_rm_pair_ne _ a b x y _ _ h1]

lemma mem_rmBoth_uncond (g : Graph) (a b : String) (e : Edge) (he : e ∈ g)
    (hc : e.compatibility = CompatibleType.UNCONDITIONAL_COMPATIBLE) : e ∈ rmBoth g a b := by
  show e ∈ rmEdgesCompat (rmEdgesCompat (rmEdgesCompat (rmEdgesCompat g
      a b CompatibleType.INCOMPATIBLE) b a CompatibleType.INCOMPATIBLE)
      a b CompatibleType.CONDITIONAL_COMPATIBLE) b a CompatibleType.CONDITIONAL_COMPATIBLE
  refine mem_rmEdgesCompat _ _ _ _ _ ?_ (by rw [hc]; intro hh; exact CompatibleType.noConfusion hh)
  refine mem_rmEdgesCompat _ _ _ _ _ ?_ (by rw [hc]; intro hh; exact CompatibleType.noConfusion hh)
  refine mem_rmEdgesCompat _ _ _ _ _ ?_ (by rw [hc]; intro hh; exact CompatibleType.noConfusion hh)
  exact mem_rmEdgesCompat _ _ _ _ _ he (by rw [hc]; intro hh; exact CompatibleType.noConfusion hh)

/-- The list of conditional copies produced by one run of the direction
loop when no unconditional edge is present. -/
def orLaterCondCopies (a b tgt x y : String) (es : List Edge) : List Edge :=
  es.filterMap (fun e0 => e0.scope.map (orLaterCondCopy a b tgt x y))

lemma condCopyFold (a b tgt x y : String) : ∀ (es : List Edge) (g : Graph),
    (∀ e ∈ es, e.scope.isSome = true) →
    (es.foldlM (fun gr e0 =>
        match e0.scope with
        | none => Except.error "KeyError: scope"
        | some sc => Except.ok (addEdge gr (orLaterCondCopy a b tgt x y sc))) g
      : Except String Graph) =
      Except.ok (g ++ orLaterCondCopies a b tgt x y es) := by
  intro es
  induction es with
  | nil =>
    intro g h
    simp [List.foldlM, orLaterCondCopies, pure, Except.pure]
  | cons e t ih =>
    intro g h
    obtain ⟨sc, hsc⟩ := Option.isSome_iff_exists.mp (h e (List.mem_cons_self e t))
    rw [List.foldlM_cons, hsc]
    show (Except.ok (addEdge g (orLaterCondCopy a b tgt x y sc)) >>= _) = _
    rw [show ∀ (z : Graph) (f : Graph → Except String Graph),
        (Except.ok z >>= f) = f z from fun z f => rfl]
    rw [ih _ (fun e2 he2 => h e2 (List.mem_cons_of_mem _ he2))]
    simp [addEdge, orLaterCondCopies, List.filterMap_cons, hsc]

lemma mem_condCopies (a b tgt x y : String) (es : List Edge) (e0 : Edge) (he0 : e0 ∈ es)
    (sc : Scope) (hsc : e0.scope = some sc) :
    orLaterCondCopy a b tgt x y sc ∈ orLaterCondCopies a b tgt x y es := by
  unfold orLaterCondCopies
  exact List.mem_filterMap.mpr ⟨e0, he0, by rw [hsc]; rfl⟩

lemma queryEdgeCompat_condCopies_v_ne (a b tgt x y p q : String) (c : CompatibleType)
    (es : List Edge) (h : (if y = tgt then a else b) ≠ q) :
    queryEdgeCompat (orLaterCondCopies a b tgt x y es) p q c = [] := by
  unfold queryEdgeCompat
  rw [List.filter_eq_nil_iff]
  intro e he
  obtain ⟨e0, he0, hmap⟩ := List.mem_filterMap.mp he
  obtain ⟨sc, hsc, hcopy⟩ : ∃ sc, e0.scope = some sc ∧ orLaterCondCopy a b tgt x y sc = e := by
    cases hh : e0.scope with
    | none => rw [hh] at hmap; exact absurd hmap (by simp)
    | some sc =>
      rw [hh] at hmap
      refine ⟨sc, rfl, ?_⟩
      simpa using hmap
    
  rw [← hcopy]
  have hv : ((orLaterCondCopy a b tgt x y sc).v == q) = false :=
    beq_eq_false_iff_ne.mpr (by show (if y = tgt then a else b) ≠ q; exact h)
  simp [hv]

lemma orLaterDirection_uncond (g : Graph) (a b tgt x y : String)
    (h : queryEdgeCompat g x y CompatibleType.UNCONDITIONAL_COMPATIBLE ≠ []) :
    orLaterDirection g a b tgt x y = Except.ok (addEdge (rmBoth g a b)
      (Edge.mk (if x = tgt then a else b) (if y = tgt then a else b)
        CompatibleType.UNCONDITIONAL_COMPATIBLE none "OrLaterRelicenseRule" (some tgt))) := by
  unfold orLaterDirection
  have h1 : (queryEdgeCompat g x y CompatibleType.UNCONDITIONAL_COMPATIBLE).isEmpty = false := by
    cases hq : queryEdgeCompat g x y CompatibleType.UNCONDITIONAL_COMPATIBLE with
    | nil => exact absurd hq h
    | cons e t => rfl
  rw [h1]
  rfl

lemma orLaterDirection_else (g : Graph) (a b tgt x y : String)
    (h : queryEdgeCompat g x y CompatibleType.UNCONDITIONAL_COMPATIBLE = [])
    (hs : ∀ e ∈ queryEdgeCompat g tgt y CompatibleType.CONDITIONAL_COMPATIBLE,
      e.scope.isSome = true) :
    orLaterDirection g a b tgt x y = Except.ok (g ++ orLaterCondCopies a b tgt x y
      (queryEdgeCompat g tgt y CompatibleType.CONDITIONAL_COMPATIBLE)) := by
  unfold orLaterDirection
  rw [h]
  show (queryEdgeCompat g tgt y CompatibleType.CONDITIONAL_COMPATIBLE).foldlM _ g = _
  exact condCopyFold a b tgt x y _ g hs

lemma mapM_version_pairs : ∀ (l : List String) (pairs : List (String × List Nat)),
    (l.mapM (fun x => (getNormalizedVersion x).map (fun vx => (x, vx)))) = some pairs →
    ∀ q : String × List Nat,
      q ∈ pairs ↔ (q.1 ∈ l ∧ getNormalizedVersion q.1 = some q.2) := by
  intro l
  induction l with
  | nil =>
    intro pairs h q
    simp only [List.mapM_nil, pure, Option.some.injEq] at h
    rw [← h]
    simp
  | cons x t ih =>
    intro pairs h q
    rw [List.mapM_cons] at h
    cases hx : getNormalizedVersion x with
    | none =>
      rw [hx] at h
      exact absurd h (by simp [Option.bind])
    | some v =>
      rw [hx] at h
      cases ht : t.mapM (fun z => (getNormalizedVersion z).map (fun vz => (z, vz))) with
      | none =>
        rw [ht] at h
        exact absurd h (by simp [Option.bind])
      | some ps =>
        rw [ht] at h
        have hps : pairs = (x, v) :: ps := by
          simpa using h.symm
        obtain ⟨q1, q2⟩ := q
        subst hps
        constructor
        · intro hq
          rcases List.mem_cons.mp hq with h1 | h1
          · have hq1 : q1 = x := congrArg Prod.fst h1
            have hq2 : q2 = v := congrArg Prod.snd h1
            subst hq1
            subst hq2
            exact ⟨List.mem_cons_self _ _, hx⟩
          · have := (ih ps ht (q1, q2)).mp h1
            exact ⟨List.mem_cons_of_mem _ this.1, this.2⟩
        · rintro ⟨hmem, hv⟩
          rcases List.mem_cons.mp hmem with h1 | h1
          · subst h1
            have : some v = some q2 := by rw [← hx, ← hv]
            have hq2 : q2 = v := (Option.some.injEq _ _ ▸ this).symm
            subst hq2
            exact List.mem_cons_self _ _
          · exact List.mem_cons_of_mem _ ((ih ps ht (q1, q2)).mpr ⟨h1, hv⟩)

lemma orLaterTargets_spec (licenses : List String) (a : String) (current : List Nat)
    (ts : List String) (h : orLaterTargets licenses a current = some ts) :
    ∀ x, x ∈ ts ↔ (x ∈ licenses ∧
      (splitOnChar '-' x.toList).headD [] = (splitOnChar '-' a.toList).headD [] ∧
      (∃ vx, getNormalizedVersion x = some vx ∧ listGtN vx current = true) ∧
      orLaterIn x = false) := by
  intro x
  unfold orLaterTargets at h
  obtain ⟨pairs, hm, hts⟩ := Option.map_eq_some'.mp h
  rw [← hts]
  simp only [List.mem_map, List.mem_filter]
  constructor
  · rintro ⟨q, ⟨hqmem, hphi⟩, hfst⟩
    have hq := (mapM_version_pairs _ _ hm q).mp hqmem
    have hcand := hq.1
    unfold find_all_versions at hcand
    have hcand2 := List.mem_filter.mp hcand
    simp only [Bool.and_eq_true, Bool.not_eq_eq_eq_not, Bool.not_true] at hphi
    subst hfst
    refine ⟨hcand2.1, ?_, ⟨q.2, hq.2, hphi.1⟩, ?_⟩
    · have := hcand2.2
      simpa using this
    · simpa using hphi.2
  · rintro ⟨hlic, hpre, ⟨vx, hvx, hgt⟩, hnol⟩
    refine ⟨(x, vx), ⟨?_, ?_⟩, rfl⟩
    · refine (mapM_version_pairs _ _ hm (x, vx)).mpr ⟨?_, hvx⟩
      unfold find_all_versions
      refine List.mem_filter.mpr ⟨hlic, ?_⟩
      simpa using hpre
    · simp [hgt, hnol]

lemma orLaterTarget_self_spec (a b : String) (g : Graph) :
    ∃ g2, orLaterTarget a b g b = Except.ok g2 ∧
      Edge.mk a b CompatibleType.UNCONDITIONAL_COMPATIBLE none "OrLaterRelicenseRule" none ∈ g2 ∧
      Edge.mk b a CompatibleType.UNCONDITIONAL_COMPATIBLE none "OrLaterRelicenseRule" none ∈ g2 := by
  have hstep : orLaterTarget a b g b = Except.ok (addEdge (addEdge
      (rmExistedEdges g a b CompatibleType.INCOMPATIBLE true)
      (Edge.mk a b CompatibleType.UNCONDITIONAL_COMPATIBLE none "OrLaterRelicenseRule" none))
      (Edge.mk b a CompatibleType.UNCONDITIONAL_COMPATIBLE none "OrLaterRelicenseRule" none)) := by
    unfold orLaterTarget
    rw [if_pos rfl]
  refine ⟨_, hstep, ?_, ?_⟩
  · simp [addEdge]
  · simp [addEdge]

lemma orLaterTarget_uncond_spec (a b tgt : String) (g : Graph)
    (hab : a ≠ b) (hta : tgt ≠ a) (htb : tgt ≠ b)
    (hself : queryEdgeCompat g tgt tgt CompatibleType.CONDITIONAL_COMPATIBLE = [])
    (hfw : queryEdgeCompat g tgt b CompatibleType.UNCONDITIONAL_COMPATIBLE ≠ []) :
    ∃ g2, orLaterTarget a b g tgt = Except.ok g2 ∧
      Edge.mk a b CompatibleType.UNCONDITIONAL_COMPATIBLE none
        "OrLaterRelicenseRule" (some tgt) ∈ g2 ∧
      (queryEdgeCompat g b tgt CompatibleType.UNCONDITIONAL_COMPATIBLE ≠ [] →
        Edge.mk b a CompatibleType.UNCONDITIONAL_COMPATIBLE none
          "OrLaterRelicenseRule" (some tgt) ∈ g2) ∧
      (queryEdgeCompat g b tgt CompatibleType.UNCONDITIONAL_COMPATIBLE = [] →
        queryEdgeCompat g2 b a CompatibleType.UNCONDITIONAL_COMPATIBLE =
          queryEdgeCompat g b a CompatibleType.UNCONDITIONAL_COMPATIBLE) := by
  have hif1 : (if tgt = tgt then a else b) = a := if_pos rfl
  have hif2 : (if b = tgt then a else b) = b := if_neg (Ne.symm htb)
  have hstep1 : orLaterTarget a b g tgt =
      orLaterDirection (addEdge (rmBoth g a b)
        (Edge.mk a b CompatibleType.UNCONDITIONAL_COMPATIBLE none
          "OrLaterRelicenseRule" (some tgt))) a b tgt b tgt := by
    unfold orLaterTarget
    rw [if_neg htb, orLaterDirection_uncond g a b tgt tgt b hfw, hif1, hif2]
  generalize hG1 : addEdge (rmBoth g a b)
      (Edge.mk a b CompatibleType.UNCONDITIONAL_COMPATIBLE none
        "OrLaterRelicenseRule" (some tgt)) = G1 at hstep1
  have hqbt : queryEdgeCompat G1 b tgt CompatibleType.UNCONDITIONAL_COMPATIBLE =
      queryEdgeCompat g b tgt CompatibleType.UNCONDITIONAL_COMPATIBLE := by
    rw [← hG1]
    rw [queryEdgeCompat_addEdge_ne _ _ b tgt _ (fun hh => hab hh.1)]
    exact queryEdgeCompat_rmBoth_pair_ne g a b b tgt _
      (fun hh => htb hh.2) (fun hh => hta hh.2)
  have hqtt : queryEdgeCompat G1 tgt tgt CompatibleType.CONDITIONAL_COMPATIBLE = [] := by
    rw [← hG1]
    rw [queryEdgeCompat_addEdge_ne _ _ tgt tgt _ (fun hh => hta hh.1.symm)]
    rw [queryEdgeCompat_rmBoth_pair_ne g a b tgt tgt _
      (fun hh => hta hh.1) (fun hh => htb hh.1)]
    exact hself
  by_cases hbw : queryEdgeCompat g b tgt CompatibleType.UNCONDITIONAL_COMPATIBLE = []
  · have hstep2 : orLaterDirection G1 a b tgt b tgt = Except.ok (G1 ++
        orLaterCondCopies a b tgt b tgt
          (queryEdgeCompat G1 tgt tgt CompatibleType.CONDITIONAL_COMPATIBLE)) := by
      refine orLaterDirection_else G1 a b tgt b tgt ?_ ?_
      · rw [hqbt]
        exact hbw
      · rw [hqtt]
        intro e he
        exact absurd he (List.not_mem_nil e)
    rw [hqtt] at hstep2
    rw [show orLaterCondCopies a b tgt b tgt [] = [] from rfl, List.append_nil] at hstep2
    refine ⟨G1, hstep1.trans hstep2, ?_, fun hcon => absurd hbw hcon, fun _ => ?_⟩
    · rw [← hG1]
      simp [addEdge]
    · rw [← hG1]
      rw [queryEdgeCompat_addEdge_ne _ _ b a _ (fun hh => hab hh.1)]
      exact queryEdgeCompat_rmBoth_uncond g a b b a
  · have hstep2 : orLaterDirection G1 a b tgt b tgt = Except.ok (addEdge (rmBoth G1 a b)
        (Edge.mk b a CompatibleType.UNCONDITIONAL_COMPATIBLE none
          "OrLaterRelicenseRule" (some tgt))) := by
      rw [orLaterDirection_uncond G1 a b tgt b tgt (by rw [hqbt]; exact hbw), hif2, hif1]
    refine ⟨_, hstep1.trans hstep2, ?_, fun _ => ?_, fun hcon => absurd hcon hbw⟩
    · have h1 : Edge.mk a b CompatibleType.UNCONDITIONAL_COMPATIBLE none
          "OrLaterRelicenseRule" (some tgt) ∈ G1 := by
        rw [← hG1]
        simp [addEdge]
      have h2 := mem_rmBoth_uncond G1 a b _ h1 rfl
      simp only [addEdge, List.mem_append]
      exact Or.inl h2
    · simp [addEdge]

lemma orLaterTarget_cond_spec (a b tgt : String) (g : Graph)
    (hta : tgt ≠ a) (htb : tgt ≠ b)
    (hfw : queryEdgeCompat g tgt b CompatibleType.UNCONDITIONAL_COMPATIBLE = [])
    (hbw : queryEdgeCompat g b tgt CompatibleType.UNCONDITIONAL_COMPATIBLE = [])
    (hself : queryEdgeCompat g tgt tgt CompatibleType.CONDITIONAL_COMPATIBLE = [])
    (hs : ∀ e ∈ queryEdgeCompat g tgt b CompatibleType.CONDITIONAL_COMPATIBLE,
      e.scope.isSome = true) :
    ∃ g2, orLaterTarget a b g tgt = Except.ok g2 ∧
      ∀ e ∈ queryEdgeCompat g tgt b CompatibleType.CONDITIONAL_COMPATIBLE,
        ∀ sc, e.scope = some sc →
          Edge.mk a b CompatibleType.CONDITIONAL_COMPATIBLE (some sc)
            "OrLaterRelicenseRule" (some tgt) ∈ g2 := by
  have hstep1 : orLaterTarget a b g tgt =
      orLaterDirection (g ++ orLaterCondCopies a b tgt tgt b
        (queryEdgeCompat g tgt b CompatibleType.CONDITIONAL_COMPATIBLE)) a b tgt b tgt := by
    unfold orLaterTarget
    rw [if_neg htb, orLaterDirection_else g a b tgt tgt b hfw hs]
  have hvne : (if b = tgt then a else b) ≠ tgt := by
    rw [if_neg (Ne.symm htb)]
    exact Ne.symm htb
  have hqbt : queryEdgeCompat (g ++ orLaterCondCopies a b tgt tgt b
      (queryEdgeCompat g tgt b CompatibleType.CONDITIONAL_COMPATIBLE)) b tgt
      CompatibleType.UNCONDITIONAL_COMPATIBLE = [] := by
    rw [queryEdgeCompat_append, hbw, List.nil_append]
    exact queryEdgeCompat_condCopies_v_ne a b tgt tgt b b tgt _ _ hvne
  have hqtt : queryEdgeCompat (g ++ orLaterCondCopies a b tgt tgt b
      (queryEdgeCompat g tgt b CompatibleType.CONDITIONAL_COMPATIBLE)) tgt tgt
      CompatibleType.CONDITIONAL_COMPATIBLE = [] := by
    rw [queryEdgeCompat_append, hself, List.nil_append]
    exact queryEdgeCompat_condCopies_v_ne a b tgt tgt b tgt tgt _ _ hvne
  have hstep2 := orLaterDirection_else (g ++ orLaterCondCopies a b tgt tgt b
      (queryEdgeCompat g tgt b CompatibleType.CONDITIONAL_COMPATIBLE)) a b tgt b tgt hqbt
    (by rw [hqtt]; intro e he; exact absurd he (List.not_mem_nil e))
  rw [hqtt] at hstep2
  rw [show orLaterCondCopies a b tgt b tgt [] = [] from rfl, List.append_nil] at hstep2
  refine ⟨_, hstep1.trans hstep2, ?_⟩
  intro e he sc hsc
  have hcopy := mem_condCopies a b tgt tgt b _ e he sc hsc
  have heq : orLaterCondCopy a b tgt tgt b sc =
      Edge.mk a b CompatibleType.CONDITIONAL_COMPATIBLE (some sc)
        "OrLaterRelicenseRule" (some tgt) := by
    unfold orLaterCondCopy
    rw [if_pos rfl, if_neg (Ne.symm htb)]
  rw [← heq]
  exact List.mem_append.mpr (Or.inr hcopy)

/-- C5 (amended): the deferred or-later callback considers exactly the
loaded licenses sharing the first dash component of A whose normalised
version is strictly greater than the current one and which contain no
or-later substring.  For a target equal to B both directions become
UNCONDITIONAL_COMPATIBLE.  For any other target, an unconditional
target→B edge yields the unconditional A→B upgrade, but the claimed B→A
upgrade is recorded only when an unconditional B→target edge also exists;
without one, no B→A unconditional edge is created (the reverse iteration
queries B→target and then falls back to the conditional self query
target→target).  When neither direction is unconditional, the conditional
target→B edges are copied onto A→B with their stored scopes. -/
theorem C5_amended_or_later :
    (∀ (licenses : List String) (a : String) (current : List Nat) (ts : List String),
      orLaterTargets licenses a current = some ts →
      ∀ x, x ∈ ts ↔ (x ∈ licenses ∧
        (splitOnChar '-' x.toList).headD [] = (splitOnChar '-' a.toList).headD [] ∧
        (∃ vx, getNormalizedVersion x = some vx ∧ listGtN vx current = true) ∧
        orLaterIn x = false)) ∧
    (∀ (a b : String) (g : Graph),
      ∃ g2, orLaterTarget a b g b = Except.ok g2 ∧
        Edge.mk a b CompatibleType.UNCONDITIONAL_COMPATIBLE none
          "OrLaterRelicenseRule" none ∈ g2 ∧
        Edge.mk b a CompatibleType.UNCONDITIONAL_COMPATIBLE none
          "OrLaterRelicenseRule" none ∈ g2) ∧
    (∀ (a b tgt : String) (g : Graph), a ≠ b → tgt ≠ a → tgt ≠ b →
      queryEdgeCompat g tgt tgt CompatibleType.CONDITIONAL_COMPATIBLE = [] →
      queryEdgeCompat g tgt b CompatibleType.UNCONDITIONAL_COMPATIBLE ≠ [] →
      ∃ g2, orLaterTarget a b g tgt = Except.ok g2 ∧
        Edge.mk a b CompatibleType.UNCONDITIONAL_COMPATIBLE none
          "OrLaterRelicenseRule" (some tgt) ∈ g2 ∧
        (queryEdgeCompat g b tgt CompatibleType.UNCONDITIONAL_COMPATIBLE ≠ [] →
          Edge.mk b a CompatibleType.UNCONDITIONAL_COMPATIBLE none
            "OrLaterRelicenseRule" (some tgt) ∈ g2) ∧
        (queryEdgeCompat g b tgt CompatibleType.UNCONDITIONAL_COMPATIBLE = [] →
          queryEdgeCompat g2 b a CompatibleType.UNCONDITIONAL_COMPATIBLE =
            queryEdgeCompat g b a CompatibleType.UNCONDITIONAL_COMPATIBLE)) ∧
    (∀ (a b tgt : String) (g : Graph), tgt ≠ a → tgt ≠ b →
      queryEdgeCompat g tgt b CompatibleType.UNCONDITIONAL_COMPATIBLE = [] →
      queryEdgeCompat g b tgt CompatibleType.UNCONDITIONAL_COMPATIBLE = [] →
      queryEdgeCompat g tgt tgt CompatibleType.CONDITIONAL_COMPATIBLE = [] →
      (∀ e ∈ queryEdgeCompat g tgt b CompatibleType.CONDITIONAL_COMPATIBLE,
        e.scope.isSome = true) →
      ∃ g2, orLaterTarget a b g tgt = Except.ok g2 ∧
        ∀ e ∈ queryEdgeCompat g tgt b CompatibleType.CONDITIONAL_COMPATIBLE,
          ∀ sc, e.scope = some sc →
            Edge.mk a b CompatibleType.CONDITIONAL_COMPATIBLE (some sc)
              "OrLaterRelicenseRule" (some tgt) ∈ g2) :=
  ⟨orLaterTargets_spec, orLaterTarget_self_spec, orLaterTarget_uncond_spec,
    orLaterTarget_cond_spec⟩

/-- Witness for C5: the unconditional-forward case of the amended theorem
evaluated at A = GPL-2.0-or-later, B = MIT, target GPL-3.0-only over the
one-edge graph of the counterexample. -/
theorem C5_witness :
    ∃ g2, orLaterTarget "GPL-2.0-or-later" "MIT"
        [Edge.mk "GPL-3.0-only" "MIT" CompatibleType.UNCONDITIONAL_COMPATIBLE none "" none]
        "GPL-3.0-only" = Except.ok g2 ∧
      Edge.mk "GPL-2.0-or-later" "MIT" CompatibleType.UNCONDITIONAL_COMPATIBLE none
        "OrLaterRelicenseRule" (some "GPL-3.0-only") ∈ g2 ∧
      (queryEdgeCompat
          [Edge.mk "GPL-3.0-only" "MIT" CompatibleType.UNCONDITIONAL_COMPATIBLE none "" none]
          "MIT" "GPL-3.0-only" CompatibleType.UNCONDITIONAL_COMPATIBLE ≠ [] →
        Edge.mk "MIT" "GPL-2.0-or-later" CompatibleType.UNCONDITIONAL_COMPATIBLE none
          "OrLaterRelicenseRule" (some "GPL-3.0-only") ∈ g2) ∧
      (queryEdgeCompat
          [Edge.mk "GPL-3.0-only" "MIT" CompatibleType.UNCONDITIONAL_COMPATIBLE none "" none]
          "MIT" "GPL-3.0-only" CompatibleType.UNCONDITIONAL_COMPATIBLE = [] →
        queryEdgeCompat g2 "MIT" "GPL-2.0-or-later"
              CompatibleType.UNCONDITIONAL_COMPATIBLE =
          queryEdgeCompat
            [Edge.mk "GPL-3.0-only" "MIT" CompatibleType.UNCONDITIONAL_COMPATIBLE none "" none]
            "MIT" "GPL-2.0-or-later" CompatibleType.UNCONDITIONAL_COMPATIBLE) :=
  C5_amended_or_later.2.2.1 "GPL-2.0-or-later" "MIT" "GPL-3.0-only"
    [Edge.mk "GPL-3.0-only" "MIT" CompatibleType.UNCONDITIONAL_COMPATIBLE none "" none]
    (by decide) (by decide) (by decide) (by decide) (by decide)

/-! ## License features and schemas (src/lict/utils/structure.py lines
237-361) and the compatibility rule chain (src/lict/infer.py).

Python dicts become insertion-ordered association lists and sets become
duplicate-free lists, as in the rest of this development; set-iteration
orders that Python leaves unspecified are determinised to first-operand
insertion order, which is observation-equivalent for every order-insensitive
use below. -/

structure ActionFeat where
  name : String
  modal : String
  protect_scope : List String
  escape_scope : List String
  target : List String
deriving DecidableEq

/-- The derived scope of an ActionFeat (structure.py lines 258-266): an
empty protect scope is replaced by [UNIVERSE], then every protect key maps
to the escape set. -/
def ActionFeat.scope (f : ActionFeat) : Scope :=
  (if f.protect_scope = [] then [UNIVERSE] else f.protect_scope).foldl
    (fun acc k => aset acc k (dedupSet f.escape_scope)) []

structure LicenseFeat where
  spdx_id : String
  can : List (String × ActionFeat)
  cannot : List (String × ActionFeat)
  must : List (String × ActionFeat)
  special : List (String × ActionFeat)
deriving DecidableEq

/-- LicenseFeat.features (structure.py lines 303-305). -/
def LicenseFeat.features (lf : LicenseFeat) : List ActionFeat :=
  (lf.can ++ lf.cannot ++ lf.must ++ lf.special).map (·.2)

/-- A value of a schema action property: either a list of modal names or a
list of modal pairs (the conflicts property). -/
inductive SchemaVal where
  | modals (l : List String)
  | modalPairs (l : List (List String))
deriving DecidableEq

/-- Python truthiness of a schema property value (a list). -/
def SchemaVal.truthyV : SchemaVal → Bool
  | SchemaVal.modals l => !l.isEmpty
  | SchemaVal.modalPairs l => !l.isEmpty

structure Schemas where
  actions : List (String × List (String × SchemaVal))
deriving DecidableEq

/-- Schemas.__post_init__ (structure.py lines 338-345): the index maps a
property key to the name of the LAST action carrying a truthy value for it
(the list created at line 344 is immediately overwritten with the bare
action name at line 345). -/
def Schemas.action_index (s : Schemas) : List (String × String) :=
  s.actions.foldl (fun idx p => p.2.foldl (fun idx2 kv =>
    if SchemaVal.truthyV kv.2 then aset idx2 kv.1 p.1 else idx2) idx) []

/-- Schemas.has_property (structure.py lines 351-354).  Because the index
holds a single action name, the Python membership test
action.name in self.action_index.get(property, []) degenerates to a
substring test against that name (and to False when the property is
unindexed); the following item accesses raise KeyError when absent.  The
source returns True or falls through returning None; both are mapped to
Bool here. -/
def Schemas.has_property (s : Schemas) (action : ActionFeat) (property : String) :
    Except String Bool :=
  match alookup (Schemas.action_index s) property with
  | none => Except.ok false
  | some owner =>
    if isInfixOfL action.name.toList owner.toList then
      match alookup s.actions action.name with
      | none => Except.error "KeyError"
      | some props =>
        match alookup props property with
        | none => Except.error "KeyError"
        | some v =>
          match v with
          | SchemaVal.modals l => Except.ok (l.contains action.modal)
          | SchemaVal.modalPairs _ => Except.ok false
    else Except.ok false

/-- Python any() over has_property results, short-circuiting left to
right. -/
def anyHasProp (s : Schemas) (property : String) : List ActionFeat → Except String Bool
  | [] => Except.ok false
  | f :: t =>
    match Schemas.has_property s f property with
    | Except.error e => Except.error e
    | Except.ok true => Except.ok true
    | Except.ok false => anyHasProp s property t

/-- getattr(license, modal) followed by use as an action dict:
AttributeError for any name other than the four modal tables. -/
def getModal (lf : LicenseFeat) (m : String) : Except String (List (String × ActionFeat)) :=
  if m = "can" then Except.ok lf.can
  else if m = "cannot" then Except.ok lf.cannot
  else if m = "must" then Except.ok lf.must
  else if m = "special" then Except.ok lf.special
  else Except.error "AttributeError"

/-- getattr(new_license_a, modal)[action] = feat (infer.py line 418). -/
def setModalA (lf : LicenseFeat) (m action : String) (f : ActionFeat) :
    Except String LicenseFeat :=
  if m = "can" then Except.ok {lf with can := aset lf.can action f}
  else if m = "cannot" then Except.ok {lf with cannot := aset lf.cannot action f}
  else if m = "must" then Except.ok {lf with must := aset lf.must action f}
  else if m = "special" then Except.ok {lf with special := aset lf.special action f}
  else Except.error "AttributeError"

/-- Modelled from the spec (section 4.4, compliance step): expanding the
triggering clause materialises an EMPTY ActionFeat for the listed
modal.action.  ActionFeat.factory is referenced at infer.py line 418 with
empty protect and escape scopes but is defined nowhere under src/. -/
def ActionFeat.factory (action modal : String) : ActionFeat :=
  ActionFeat.mk action modal [] [] []

/-- The triggering expansion loop of check_compliance (infer.py lines
413-418); modal, action = trigger.split(".") raises ValueError unless the
split has exactly two parts, and getattr raises for an unknown modal. -/
def applyTriggers (lf : LicenseFeat) : List String → Except String LicenseFeat
  | [] => Except.ok lf
  | trig :: rest =>
    match splitOnChar '.' trig.toList with
    | [m, act] =>
      match setModalA lf (String.mk m) (String.mk act)
          (ActionFeat.factory (String.mk act) (String.mk m)) with
      | Except.error e => Except.error e
      | Except.ok lf2 => applyTriggers lf2 rest
    | _ => Except.error "ValueError: unpack"

/-- list(filter(has_property(x, compliance), features)) with errors
propagated in evaluation order. -/
def filterHasProp (s : Schemas) (property : String) :
    List ActionFeat → Except String (List ActionFeat)
  | [] => Except.ok []
  | f :: t =>
    match Schemas.has_property s f property with
    | Except.error e => Except.error e
    | Except.ok bf =>
      match filterHasProp s property t with
      | Except.error e => Except.error e
      | Except.ok rest => Except.ok (if bf then f :: rest else rest)

/-- self.schemas[name][property] with both KeyErrors. -/
def schemaLookup2 (s : Schemas) (aname property : String) : Except String SchemaVal :=
  match alookup s.actions aname with
  | none => Except.error "KeyError"
  | some props =>
    match alookup props property with
    | none => Except.error "KeyError"
    | some v => Except.ok v

/-- The per-modal body of check_compliance (infer.py lines 429-448): when
the key set of B is not a subset of A, any extra key of B whose scope meets
feat_a.scope is a violation; independently, every common key demands that
A's action scope contain B's. -/
def complianceModalCheck (fa : ActionFeat) (na b : LicenseFeat) (m : String) :
    Except String Bool :=
  match getModal na m with
  | Except.error e => Except.error e
  | Except.ok aacts =>
    match getModal b m with
    | Except.error e => Except.error e
    | Except.ok bacts =>
      let akeys := aacts.map (·.1)
      let bkeys := bacts.map (·.1)
      let is_subset := bkeys.all akeys.contains
      if !is_subset &&
          (bacts.filter (fun p => !akeys.contains p.1)).any
            (fun p => Scope.truthy (Scope.sand (ActionFeat.scope p.2) (ActionFeat.scope fa)))
        then Except.ok false
      else if aacts.any (fun p =>
          match alookup bacts p.1 with
          | none => false
          | some bact => !(Scope.scontains (ActionFeat.scope p.2) (ActionFeat.scope bact)))
        then Except.ok false
      else Except.ok true

def complianceModals (fa : ActionFeat) (na b : LicenseFeat) : List String → Except String Bool
  | [] => Except.ok true
  | m :: rest =>
    match complianceModalCheck fa na b m with
    | Except.error e => Except.error e
    | Except.ok false => Except.ok false
    | Except.ok true => complianceModals fa na b rest

/-- The outer compliance loop (infer.py lines 427-450).  Iterating a
modal-pair-valued property value would hand a list to getattr and raise
TypeError unless it is empty. -/
def complianceFeats (s : Schemas) (na b : LicenseFeat) : List ActionFeat → Except String Bool
  | [] => Except.ok true
  | fa :: rest =>
    match schemaLookup2 s fa.name "compliance" with
    | Except.error e => Except.error e
    | Except.ok (SchemaVal.modals l) =>
      match complianceModals fa na b l with
      | Except.error e => Except.error e
      | Except.ok false => Except.ok false
      | Except.ok true => complianceFeats s na b rest
    | Except.ok (SchemaVal.modalPairs l) =>
      if l.isEmpty then complianceFeats s na b rest
      else Except.error "TypeError"

/-- ComplianceRequirementRule.check_compliance (infer.py lines 402-450). -/
def check_compliance (s : Schemas) (a b : LicenseFeat) : Except String Bool :=
  match (match alookup a.special "triggering" with
    | some tf => applyTriggers a tf.target
    | none => Except.ok a) with
  | Except.error e => Except.error e
  | Except.ok na =>
    match filterHasProp s "compliance" na.features with
    | Except.error e => Except.error e
    | Except.ok feats => complianceFeats s na b feats

/-- find_duplicate_keys (scaffold.py lines 124-128): the set of keys common
to both dicts, determinised to first-dict insertion order (the Python set
iteration order is unspecified; every consumer below is
order-insensitive in its observable outcome). -/
def find_duplicate_keys (a b : List (String × ActionFeat)) : List String :=
  dedupSet ((a.map (·.1)).filter (fun k => (b.map (·.1)).contains k))

/-- The conflict-key loop of ClauseConflictRule.__call__ (infer.py lines
502-530) for one (modal_a, modal_b) direction.  The result is either an
early INCOMPATIBLE return (Sum.inl, with the edge already added) or the
updated (condition_scope, conflict_flag, license_a_scope) accumulator.
schemas[conflict] raises KeyError for an action absent from the schema;
a string-valued conflicts entry makes the modal test a substring test. -/
def ccConflicts (s : Schemas) (aSp bSp : String)
    (aacts bacts : List (String × ActionFeat)) (ma mb : String) (g : Graph) :
    List String → (Scope × Bool × Scope) → Except String (Sum Graph (Scope × Bool × Scope))
  | [], st => Except.ok (Sum.inr st)
  | k :: rest, st =>
    match alookup s.actions k with
    | none => Except.error "KeyError"
    | some props =>
      let skip :=
        match alookup props "conflicts" with
        | none => false
        | some v =>
          if SchemaVal.truthyV v then
            match v with
            | SchemaVal.modals l =>
              !(l.any (fun mp => isInfixOfL ma.toList mp.toList && isInfixOfL mb.toList mp.toList))
            | SchemaVal.modalPairs l =>
              !(l.any (fun mp => mp.contains ma && mp.contains mb))
          else false
      if skip then ccConflicts s aSp bSp aacts bacts ma mb g rest st
      else
        match alookup aacts k, alookup bacts k with
        | some fa, some fb =>
          let conflict_scope := Scope.sand (ActionFeat.scope fa) (ActionFeat.scope fb)
          if Scope.truthy conflict_scope = false then
            ccConflicts s aSp bSp aacts bacts ma mb g rest st
          else if Scope.is_universal conflict_scope then
            Except.ok (Sum.inl (addEdge g
              (Edge.mk aSp bSp CompatibleType.INCOMPATIBLE none "ClauseConflictRule" none)))
          else
            let compatible_scope := Scope.sand (Scope.negate conflict_scope) (ActionFeat.scope fa)
            if Scope.truthy compatible_scope = false then
              Except.ok (Sum.inl (addEdge g
                (Edge.mk aSp bSp CompatibleType.INCOMPATIBLE none "ClauseConflictRule" none)))
            else
              ccConflicts s aSp bSp aacts bacts ma mb g rest
                (Scope.sand st.1 compatible_scope, true,
                 Scope.sand st.2.2 (Scope.sand (Scope.negate (ActionFeat.scope fa)) compatible_scope))
        | _, _ => Except.error "KeyError"

/-- The modal-pair loop of ClauseConflictRule.__call__ (infer.py lines
499-530): itertools.product then permutations yields the four directed
modal pairs in this order. -/
def ccLoop (s : Schemas) (aSp bSp : String) (g : Graph) :
    List ((List (String × ActionFeat)) × (List (String × ActionFeat)) × String × String) →
    (Scope × Bool × Scope) → Except String (Sum Graph (Scope × Bool × Scope))
  | [], st => Except.ok (Sum.inr st)
  | (aacts, bacts, ma, mb) :: rest, st =>
    match ccConflicts s aSp bSp aacts bacts ma mb g (find_duplicate_keys aacts bacts) st with
    | Except.error e => Except.error e
    | Except.ok (Sum.inl g2) => Except.ok (Sum.inl g2)
    | Except.ok (Sum.inr st2) => ccLoop s aSp bSp g rest st2

/-- The rules of the chain, one tag per CompatibleRule subclass. -/
inductive RuleTag where
  | publicDomain
  | immutability
  | exceptRelicense
  | orLater
  | compliance
  | clauseConflict
  | defaultR
  | endR
deriving DecidableEq

/-- A queued deferred callback: the closures created at infer.py lines 237
and 310 capture the rule and the license pair. -/
inductive CBEntry where
  | exceptRel (a b : LicenseFeat)
  | orLaterCB (a b : LicenseFeat)
deriving DecidableEq

/-- ClauseConflictRule.__call__ (infer.py lines 482-549).  The falsy
license_a_scope branch falls through to "return EndRule, edge" with the
INCOMING edge parameter and without adding any edge. -/
def clauseConflictCall (s : Schemas) (a b : LicenseFeat) (edge : Option Edge) (g : Graph) :
    Except String (RuleTag × Option Edge × Graph) :=
  if hasUncond g b.spdx_id a.spdx_id then Except.ok (RuleTag.defaultR, none, g)
  else
    match ccLoop s a.spdx_id b.spdx_id g
        [(a.can, b.cannot, "can", "cannot"), (a.cannot, b.can, "cannot", "can"),
         (a.must, b.cannot, "must", "cannot"), (a.cannot, b.must, "cannot", "must")]
        (Scope.univ, false, Scope.univ) with
    | Except.error e => Except.error e
    | Except.ok (Sum.inl g2) => Except.ok (RuleTag.endR, none, g2)
    | Except.ok (Sum.inr (cond, flag, las)) =>
      if flag = false then Except.ok (RuleTag.defaultR, none, g)
      else if Scope.truthy cond = false then
        Except.ok (RuleTag.endR, none, addEdge g
          (Edge.mk a.spdx_id b.spdx_id CompatibleType.INCOMPATIBLE none "ClauseConflictRule" none))
      else if Scope.truthy las then
        Except.ok (RuleTag.endR,
          some (Edge.mk a.spdx_id b.spdx_id CompatibleType.CONDITIONAL_COMPATIBLE (some las)
            "ClauseConflictRule" none),
          addEdge g (Edge.mk a.spdx_id b.spdx_id CompatibleType.CONDITIONAL_COMPATIBLE (some las)
            "ClauseConflictRule" none))
      else Except.ok (RuleTag.endR, edge, g)

/-- One rule invocation: the __call__ bodies of the eight rules
(infer.py lines 160-549), acting on the graph and the callback queue and
returning the next rule tag plus the edge value the driver threads
through. -/
def ruleStep (s : Schemas) (a b : LicenseFeat) (edge : Option Edge) (g : Graph)
    (q : List CBEntry) : RuleTag → Except String (RuleTag × Option Edge × Graph × List CBEntry)
  | RuleTag.publicDomain =>
    if a.spdx_id = "public-domain" || b.spdx_id = "public-domain" then
      Except.ok (RuleTag.endR,
        some (Edge.mk a.spdx_id b.spdx_id CompatibleType.UNCONDITIONAL_COMPATIBLE none
          "PublicDomainRule" none),
        addEdge g (Edge.mk a.spdx_id b.spdx_id CompatibleType.UNCONDITIONAL_COMPATIBLE none
          "PublicDomainRule" none), q)
    else Except.ok (RuleTag.immutability, none, g, q)
  | RuleTag.immutability =>
    match anyHasProp s "immutability" a.features with
    | Except.error e => Except.error e
    | Except.ok ai =>
      match anyHasProp s "immutability" b.features with
      | Except.error e => Except.error e
      | Except.ok bi =>
        if ai || bi then
          Except.ok (RuleTag.endR, none, addEdge g
            (Edge.mk a.spdx_id b.spdx_id CompatibleType.INCOMPATIBLE none
              "ImmutabilityRule" none), q)
        else Except.ok (RuleTag.exceptRelicense, none, g, q)
  | RuleTag.exceptRelicense =>
    match alookup a.special "relicense" with
    | some rf =>
      if rf.target.isEmpty then Except.ok (RuleTag.orLater, none, g, q)
      else Except.ok (RuleTag.orLater, none, g, q ++ [CBEntry.exceptRel a b])
    | none => Except.ok (RuleTag.orLater, none, g, q)
  | RuleTag.orLater =>
    if orLaterIn a.spdx_id then
      Except.ok (RuleTag.compliance, none, g, q ++ [CBEntry.orLaterCB a b])
    else Except.ok (RuleTag.compliance, none, g, q)
  | RuleTag.compliance =>
    match check_compliance s a b with
    | Except.error e => Except.error e
    | Except.ok false =>
      Except.ok (RuleTag.endR, none, addEdge g
        (Edge.mk a.spdx_id b.spdx_id CompatibleType.INCOMPATIBLE none
          "ComplianceRequirementRule" none), q)
    | Except.ok true =>
      match check_compliance s b a with
      | Except.error e => Except.error e
      | Except.ok false =>
        Except.ok (RuleTag.endR, none, addEdge g
          (Edge.mk a.spdx_id b.spdx_id CompatibleType.INCOMPATIBLE none
            "ComplianceRequirementRule" none), q)
      | Except.ok true => Except.ok (RuleTag.clauseConflict, none, g, q)
  | RuleTag.clauseConflict =>
    match clauseConflictCall s a b edge g with
    | Except.error e => Except.error e
    | Except.ok (r2, e2, g2) => Except.ok (r2, e2, g2, q)
  | RuleTag.defaultR =>
    Except.ok (RuleTag.endR,
      some (Edge.mk a.spdx_id b.spdx_id CompatibleType.UNCONDITIONAL_COMPATIBLE none
        "DefaultCompatibleRule" none),
      addEdge g (Edge.mk a.spdx_id b.spdx_id CompatibleType.UNCONDITIONAL_COMPATIBLE none
        "DefaultCompatibleRule" none), q)
  | RuleTag.endR => Except.ok (RuleTag.endR, edge, g, q)

/-- Failure modes of the chain driver: exhausted fuel (cannot happen, as
proved below), the ValueError of infer.py line 629 on revisiting a rule,
and a Python exception escaping a rule body. -/
inductive ChainErr where
  | fuelOut
  | revisit (r : RuleTag)
  | pyerr (msg : String)
deriving DecidableEq

/-- The per-pair driver loop of CompatibleInfer.check_compatibility
(infer.py lines 624-633): run rules from the current one until EndRule,
raising when a rule is about to be visited twice.  The extra fuel argument
makes the loop structurally recursive; the returned Nat counts the rule
invocations performed. -/
def chainRun (s : Schemas) (a b : LicenseFeat) :
    Nat → RuleTag → Option Edge → Graph → List CBEntry → List RuleTag →
    Except ChainErr (Graph × List CBEntry × Nat)
  | 0, r, _, g, q, _ =>
    if r = RuleTag.endR then Except.ok (g, q, 0) else Except.error ChainErr.fuelOut
  | Nat.succ n, r, edge, g, q, visited =>
    if r = RuleTag.endR then Except.ok (g, q, 0)
    else if visited.contains r then Except.error (ChainErr.revisit r)
    else
      match ruleStep s a b edge g q r with
      | Except.error msg => Except.error (ChainErr.pyerr msg)
      | Except.ok (r2, e2, g2, q2) =>
        match chainRun s a b n r2 e2 g2 q2 (r :: visited) with
        | Except.error err => Except.error err
        | Except.ok (gf, qf, k) => Except.ok (gf, qf, k + 1)

/-- The conditional-edge loop of ExceptRelicenseRule.callback (infer.py
lines 283-297): each conditional target→B edge whose stored scope meets the
relicense scope yields a CONDITIONAL A→B edge; a conditional edge without a
stored scope raises KeyError. -/
def exceptRelCondFold (aSp bSp : String) (rfScope : Scope) :
    List Edge → Graph → Except String Graph
  | [], g => Except.ok g
  | e :: rest, g =>
    match e.scope with
    | none => Except.error "KeyError: scope"
    | some sc =>
      let ns := Scope.sand sc rfScope
      if Scope.truthy ns = false then exceptRelCondFold aSp bSp rfScope rest g
      else exceptRelCondFold aSp bSp rfScope rest (addEdge g
        (Edge.mk aSp bSp CompatibleType.CONDITIONAL_COMPATIBLE (some ns)
          "ExceptRelicenseRule" none))

/-- The target loop of ExceptRelicenseRule.callback (infer.py lines
256-297): an unconditional target→B edge replaces the INCOMPATIBLE A→B
edges by one CONDITIONAL edge carrying the relicense scope and returns
from the whole callback; otherwise the conditional edges of the target are
folded in and the next target is tried. -/
def exceptRelTargets (aSp bSp : String) (rfScope : Scope) :
    List String → Graph → Except String Graph
  | [], g => Except.ok g
  | tgt :: rest, g =>
    if !(queryEdgeCompat g tgt bSp CompatibleType.UNCONDITIONAL_COMPATIBLE).isEmpty then
      Except.ok (addEdge (rmEdgesCompat g aSp bSp CompatibleType.INCOMPATIBLE)
        (Edge.mk aSp bSp CompatibleType.CONDITIONAL_COMPATIBLE (some rfScope)
          "ExceptRelicenseRule" none))
    else
      match exceptRelCondFold aSp bSp rfScope
          (queryEdgeCompat g tgt bSp CompatibleType.CONDITIONAL_COMPATIBLE) g with
      | Except.error e => Except.error e
      | Except.ok g2 => exceptRelTargets aSp bSp rfScope rest g2

/-- ExceptRelicenseRule.callback (infer.py lines 240-297). -/
def exceptRelCallback (g : Graph) (a b : LicenseFeat) : Except String Graph :=
  if hasUncond g a.spdx_id b.spdx_id then Except.ok g
  else
    match alookup a.special "relicense" with
    | none => Except.ok g
    | some rf => exceptRelTargets a.spdx_id b.spdx_id (ActionFeat.scope rf) rf.target g

/-- Executing one queued callback closure against the graph. -/
def applyCB (names : List String) (g : Graph) : CBEntry → Except String Graph
  | CBEntry.exceptRel a b => exceptRelCallback g a b
  | CBEntry.orLaterCB a b => orLaterCallback names g a.spdx_id b.spdx_id

/-- The callback drain loop of CompatibleInfer.check_compatibility
(infer.py lines 635-637): pop(0) makes it first-in-first-out. -/
def drainQueue (names : List String) : Graph → List CBEntry → Except String Graph
  | g, [] => Except.ok g
  | g, cb :: rest =>
    match applyCB names g cb with
    | Except.error e => Except.error e
    | Except.ok g2 => drainQueue names g2 rest

/-- itertools.product(values, repeat=2) in iteration order. -/
def prodPairs {α : Type} (l : List α) : List (α × α) :=
  (l.map (fun x => l.map (fun y => (x, y)))).flatten

/-- The pair loop of CompatibleInfer.check_compatibility (infer.py lines
620-633): equal pairs are skipped, every other ordered pair runs the rule
chain from the start rule (PublicDomainRule) with an empty visited set,
threading the graph and the callback queue. -/
def pairsRun (s : Schemas) : List (LicenseFeat × LicenseFeat) → Graph × List CBEntry →
    Except ChainErr (Graph × List CBEntry)
  | [], st => Except.ok st
  | (a, b) :: rest, (g, q) =>
    if a = b then pairsRun s rest (g, q)
    else
      match chainRun s a b 9 RuleTag.publicDomain none g q [] with
      | Except.error err => Except.error err
      | Except.ok (g2, q2, _) => pairsRun s rest (g2, q2)

/-- CompatibleInfer.check_compatibility (infer.py lines 610-637): all
ordered pairs through the rule chain, then a single FIFO drain of the
callback queue. -/
def checkCompatibility (s : Schemas) (licenses : List (String × LicenseFeat)) :
    Except ChainErr Graph :=
  match pairsRun s (prodPairs (licenses.map (·.2))) ([], []) with
  | Except.error err => Except.error err
  | Except.ok (g, q) =>
    match drainQueue (licenses.map (·.1)) g q with
    | Except.error m => Except.error (ChainErr.pyerr m)
    | Except.ok gf => Except.ok gf

/-- C1: a concrete two-license input on which the inference pass violates
the one-terminal-edge-per-ordered-pair invariant.  License lic-a grants
action X everywhere (empty protect scope, so scope is universal); lic-b
forbids X on STATIC_LINKING escaping COMPILE; the schema knows X with no
properties.  For the ordered pair (lic-a, lic-b) the clause-conflict rule
finds the conflict, computes a truthy condition_scope but a falsy
license_a_scope, and falls through without recording any edge: the
finished graph holds no lic-a→lic-b edge at all (only the
lic-b→lic-a INCOMPATIBLE edge of the opposite pair). -/
theorem C1_missing_terminal_edge :
    checkCompatibility (Schemas.mk [("X", [])])
        [("lic-a", LicenseFeat.mk "lic-a" [("X", ActionFeat.mk "X" "can" [] [] [])] [] [] []),
         ("lic-b", LicenseFeat.mk "lic-b" []
            [("X", ActionFeat.mk "X" "cannot" ["STATIC_LINKING"] ["COMPILE"] [])] [] [])] =
      Except.ok
        [Edge.mk "lic-b" "lic-a" CompatibleType.INCOMPATIBLE none "ClauseConflictRule" none] ∧
    queryEdge [Edge.mk "lic-b" "lic-a" CompatibleType.INCOMPATIBLE none "ClauseConflictRule" none]
      "lic-a" "lic-b" = [] := by
  exact ⟨by decide, by decide⟩

/-- The position of each rule along the chain: every successful rule
invocation strictly increases it. -/
def RuleTag.rank : RuleTag → Nat
  | RuleTag.publicDomain => 0
  | RuleTag.immutability => 1
  | RuleTag.exceptRelicense => 2
  | RuleTag.orLater => 3
  | RuleTag.compliance => 4
  | RuleTag.clauseConflict => 5
  | RuleTag.defaultR => 6
  | RuleTag.endR => 7

lemma clauseConflictCall_next (s : Schemas) (a b : LicenseFeat) (edge : Option Edge)
    (g : Graph) (r2 : RuleTag) (e2 : Option Edge) (g2 : Graph)
    (h : clauseConflictCall s a b edge g = Except.ok (r2, e2, g2)) :
    r2 = RuleTag.defaultR ∨ r2 = RuleTag.endR := by
  unfold clauseConflictCall at h
  split at h
  · simp only [Except.ok.injEq, Prod.mk.injEq] at h
    exact Or.inl h.1.symm
  · split at h
    · exact absurd h (by simp)
    · simp only [Except.ok.injEq, Prod.mk.injEq] at h
      exact Or.inr h.1.symm
    · split at h
      · simp only [Except.ok.injEq, Prod.mk.injEq] at h
        exact Or.inl h.1.symm
      · split at h
        · simp only [Except.ok.injEq, Prod.mk.injEq] at h
          exact Or.inr h.1.symm
        · split at h
          · simp only [Except.ok.injEq, Prod.mk.injEq] at h
            exact Or.inr h.1.symm
          · simp only [Except.ok.injEq, Prod.mk.injEq] at h
            exact Or.inr h.1.symm

lemma ruleStep_rank (s : Schemas) (a b : LicenseFeat) (edge : Option Edge) (g : Graph)
    (q : List CBEntry) (r r2 : RuleTag) (e2 : Option Edge) (g2 : Graph) (q2 : List CBEntry)
    (hr : r ≠ RuleTag.endR)
    (h : ruleStep s a b edge g q r = Except.ok (r2, e2, g2, q2)) :
    RuleTag.rank r < RuleTag.rank r2 := by
  cases r with
  | publicDomain =>
    simp only [ruleStep] at h
    split at h <;>
      (simp only [Except.ok.injEq, Prod.mk.injEq] at h; rw [← h.1]; decide)
  | immutability =>
    simp only [ruleStep] at h
    split at h
    · exact absurd h (by simp)
    · split at h
      · exact absurd h (by simp)
      · split at h <;>
          (simp only [Except.ok.injEq, Prod.mk.injEq] at h; rw [← h.1]; decide)
  | exceptRelicense =>
    simp only [ruleStep] at h
    split at h <;> first
      | (split at h <;> (simp only [Except.ok.injEq, Prod.mk.injEq] at h; rw [← h.1]; decide))
      | (simp only [Except.ok.injEq, Prod.mk.injEq] at h; rw [← h.1]; decide)
  | orLater =>
    simp only [ruleStep] at h
    split at h <;>
      (simp only [Except.ok.injEq, Prod.mk.injEq] at h; rw [← h.1]; decide)
  | compliance =>
    simp only [ruleStep] at h
    split at h
    · exact absurd h (by simp)
    · simp only [Except.ok.injEq, Prod.mk.injEq] at h
      rw [← h.1]
      decide
    · split at h
      · exact absurd h (by simp)
      · simp only [Except.ok.injEq, Prod.mk.injEq] at h
        rw [← h.1]
        decide
      · simp only [Except.ok.injEq, Prod.mk.injEq] at h
        rw [← h.1]
        decide
  | clauseConflict =>
    rcases hcc : clauseConflictCall s a b edge g with msg | ⟨r3, e3, g3⟩
    · unfold ruleStep at h
      rw [hcc] at h
      exact absurd h (by simp)
    · unfold ruleStep at h
      rw [hcc] at h
      simp only [Except.ok.injEq, Prod.mk.injEq] at h
      rcases clauseConflictCall_next s a b edge g r3 e3 g3 hcc with h4 | h4 <;>
        (rw [← h.1, h4]; decide)
  | defaultR =>
    simp only [ruleStep] at h
    simp only [Except.ok.injEq, Prod.mk.injEq] at h
    rw [← h.1]
    decide
  | endR => exact absurd rfl hr

lemma chainRun_progress (s : Schemas) (a b : LicenseFeat) : ∀ (fuel : Nat) (r : RuleTag)
    (edge : Option Edge) (g : Graph) (q : List CBEntry) (visited : List RuleTag),
    (∀ v ∈ visited, RuleTag.rank v < RuleTag.rank r) → 7 ≤ RuleTag.rank r + fuel →
    (∀ r0, chainRun s a b fuel r edge g q visited ≠ Except.error (ChainErr.revisit r0)) ∧
    chainRun s a b fuel r edge g q visited ≠ Except.error ChainErr.fuelOut ∧
    (∀ gf qf k, chainRun s a b fuel r edge g q visited = Except.ok (gf, qf, k) →
      k + RuleTag.rank r ≤ 7) := by
  intro fuel
  induction fuel with
  | zero =>
    intro r edge g q visited hvis hfuel
    have hr : r = RuleTag.endR := by
      cases r <;> first | rfl | (exfalso; simp [RuleTag.rank] at hfuel)
    subst hr
    refine ⟨fun r0 hcon => ?_, fun hcon => ?_, fun gf qf k hk => ?_⟩
    · simp [chainRun] at hcon
    · simp [chainRun] at hcon
    · simp [chainRun] at hk
      rw [← hk.2.2]
      decide
  | succ n ih =>
    intro r edge g q visited hvis hfuel
    by_cases hr : r = RuleTag.endR
    · subst hr
      refine ⟨fun r0 hcon => ?_, fun hcon => ?_, fun gf qf k hk => ?_⟩
      · simp [chainRun] at hcon
      · simp [chainRun] at hcon
      · simp [chainRun] at hk
        rw [← hk.2.2]
        decide
    · have hnv : r ∉ visited := fun hm => absurd (hvis r hm) (lt_irrefl _)
      rcases hstep : ruleStep s a b edge g q r with msg | ⟨r2, e2, g2, q2⟩
      · have heq2 : chainRun s a b (Nat.succ n) r edge g q visited =
            Except.error (ChainErr.pyerr msg) := by
          simp [chainRun, hr, hnv, hstep]
        refine ⟨fun r0 hcon => ?_, fun hcon => ?_, fun gf qf k hk => ?_⟩
        · rw [heq2] at hcon
          simp at hcon
        · rw [heq2] at hcon
          simp at hcon
        · rw [heq2] at hk
          simp at hk
      · have hrank := ruleStep_rank s a b edge g q r r2 e2 g2 q2 hr hstep
        have hvis2 : ∀ v ∈ (r :: visited), RuleTag.rank v < RuleTag.rank r2 := by
          intro v hv
          rcases List.mem_cons.mp hv with hv1 | hv2
          · rw [hv1]
            exact hrank
          · exact lt_trans (hvis v hv2) hrank
        have hfuel2 : 7 ≤ RuleTag.rank r2 + n := by omega
        obtain ⟨ih1, ih2, ih3⟩ := ih r2 e2 g2 q2 (r :: visited) hvis2 hfuel2
        rcases hrec : chainRun s a b n r2 e2 g2 q2 (r :: visited) with err | ⟨gf2, qf2, k2⟩
        · have heq2 : chainRun s a b (Nat.succ n) r edge g q visited = Except.error err := by
            simp [chainRun, hr, hnv, hstep, hrec]
          refine ⟨fun r0 hcon => ?_, fun hcon => ?_, fun gf qf k hk => ?_⟩
          · rw [heq2] at hcon
            have herr : err = ChainErr.revisit r0 := by
              simpa using hcon
            rw [herr] at hrec
            exact ih1 r0 hrec
          · rw [heq2] at hcon
            have herr : err = ChainErr.fuelOut := by
              simpa using hcon
            rw [herr] at hrec
            exact ih2 hrec
          · rw [heq2] at hk
            simp at hk
        · have heq2 : chainRun s a b (Nat.succ n) r edge g q visited =
              Except.ok (gf2, qf2, k2 + 1) := by
            simp [chainRun, hr, hnv, hstep, hrec]
          refine ⟨fun r0 hcon => ?_, fun hcon => ?_, fun gf qf k hk => ?_⟩
          · rw [heq2] at hcon
            simp at hcon
          · rw [heq2] at hcon
            simp at hcon
          · rw [heq2] at hk
            simp only [Except.ok.injEq, Prod.mk.injEq] at hk
            have hk2 := ih3 gf2 qf2 k2 hrec
            rw [← hk.2.2]
            omega

/-- C6: for every schema and license pair, the rule chain of
CompatibleInfer.check_compatibility started at the start rule
(PublicDomainRule) with an empty visited set never trips the revisit
guard and never exhausts its fuel (it terminates), and when it completes
it has performed at most |rules| = 8 rule transitions; whenever the
current rule is already in the visited set the driver raises the
ValueError of infer.py line 629 instead of looping; and the callback
queue is drained first-in-first-out by the single drain loop that follows
the pair loop. -/
theorem C6_chain_termination :
    (∀ (s : Schemas) (a b : LicenseFeat) (g : Graph) (q : List CBEntry) (r0 : RuleTag),
      chainRun s a b 9 RuleTag.publicDomain none g q [] ≠
        Except.error (ChainErr.revisit r0)) ∧
    (∀ (s : Schemas) (a b : LicenseFeat) (g : Graph) (q : List CBEntry),
      chainRun s a b 9 RuleTag.publicDomain none g q [] ≠ Except.error ChainErr.fuelOut) ∧
    (∀ (s : Schemas) (a b : LicenseFeat) (g : Graph) (q : List CBEntry)
        (gf : Graph) (qf : List CBEntry) (k : Nat),
      chainRun s a b 9 RuleTag.publicDomain none g q [] = Except.ok (gf, qf, k) → k ≤ 8) ∧
    (∀ (s : Schemas) (a b : LicenseFeat) (n : Nat) (r : RuleTag) (edge : Option Edge)
        (g : Graph) (q : List CBEntry) (visited : List RuleTag),
      r ≠ RuleTag.endR → r ∈ visited →
      chainRun s a b (n + 1) r edge g q visited = Except.error (ChainErr.revisit r)) ∧
    (∀ (names : List String) (g : Graph) (cb : CBEntry) (rest : List CBEntry),
      drainQueue names g [] = Except.ok g ∧
      drainQueue names g (cb :: rest) =
        (match applyCB names g cb with
         | Except.error e => Except.error e
         | Except.ok g2 => drainQueue names g2 rest)) := by
  refine ⟨?_, ?_, ?_, ?_, ?_⟩
  · intro s a b g q r0
    exact (chainRun_progress s a b 9 RuleTag.publicDomain none g q []
      (fun v hv => absurd hv (List.not_mem_nil v)) (by decide)).1 r0
  · intro s a b g q
    exact (chainRun_progress s a b 9 RuleTag.publicDomain none g q []
      (fun v hv => absurd hv (List.not_mem_nil v)) (by decide)).2.1
  · intro s a b g q gf qf k h
    have := (chainRun_progress s a b 9 RuleTag.publicDomain none g q []
      (fun v hv => absurd hv (List.not_mem_nil v)) (by decide)).2.2 gf qf k h
    simp [RuleTag.rank] at this
    omega
  · intro s a b n r edge g q visited hr hmem
    simp [chainRun, hr, hmem]
  · intro names g cb rest
    exact ⟨rfl, rfl⟩

/-- Witness for C6: the full chain evaluated on a pair of featureless
licenses over the empty schema performs exactly 7 transitions
(PublicDomain, Immutability, ExceptRelicense, OrLaterRelicense,
ComplianceRequirement, ClauseConflict, DefaultCompatible) and the bound of
the theorem applies to it. -/
theorem C6_witness :
    chainRun (Schemas.mk []) (LicenseFeat.mk "a0" [] [] [] [])
        (LicenseFeat.mk "b0" [] [] [] []) 9 RuleTag.publicDomain none [] [] [] =
      Except.ok ([Edge.mk "a0" "b0" CompatibleType.UNCONDITIONAL_COMPATIBLE none
        "DefaultCompatibleRule" none], [], 7) ∧
    7 ≤ 8 :=
  ⟨by decide,
    C6_chain_termination.2.2.1 (Schemas.mk []) (LicenseFeat.mk "a0" [] [] [] [])
      (LicenseFeat.mk "b0" [] [] [] []) [] []
      [Edge.mk "a0" "b0" CompatibleType.UNCONDITIONAL_COMPATIBLE none
        "DefaultCompatibleRule" none] [] 7 (by decide)⟩
